import Mathlib

/-!
Verification of the DMI (BYOND icon) library: a shallow embedding of the
PNG chunk engine, the zTXt codec, the RawDmi container, the manifest text
codec and the icon-state lookup, together with proofs about the library's
documented behaviour.

Conventions of the embedding:
* Bytes are represented as natural numbers (values < 256 on real inputs);
  byte buffers and the fixed-size arrays of the source (such as the
  four-byte length, type and CRC fields) are lists of naturals.
* u32 values are naturals; big-endian encoding and decoding are explicit.
* usize arithmetic that can wrap is taken modulo 2^64 at the operation
  where the source can wrap.
* Fallible functions return Except DmiError; functions whose source can
  also panic (slice out of bounds, NonZeroU32::new(x).unwrap) return the
  LResult type, whose panicked constructor marks the panic.
* The format! error messages of the source interpolate runtime values;
  the embedding keeps each message as a fixed string holding the static
  part of the text, since only the error variant and which message was
  chosen matter for the properties proved here.
-/

/-- Big-endian encoding of a u32 value, as in u32::to_be_bytes. -/
def u32_to_be (n : Nat) : List Nat :=
  [n / 16777216 % 256, n / 65536 % 256, n / 256 % 256, n % 256]

/-- Big-endian decoding of four bytes, as in u32::from_be_bytes. -/
def u32_from_be4 (l : List Nat) : Nat :=
  ((l.getD 0 0 * 256 + l.getD 1 0) * 256 + l.getD 2 0) * 256 + l.getD 3 0

/-- One step of the CRC-32 update loop from crc.rs: xor the message byte in,
then eight rounds of the reflected polynomial division. -/
def update_crc (crc message : Nat) : Nat :=
  (fun c => (if c % 2 = 1 then 0xedb88320 else 0) ^^^ (c / 2))^[8] (crc ^^^ message)

/-- calculate_crc from crc.rs: fold update_crc starting from u32::MAX and
xor the result with u32::MAX. -/
def calculate_crc (buffer : List Nat) : Nat :=
  (buffer.foldl update_crc 4294967295) ^^^ 4294967295

/-- The DmiError enum from error.rs. Variants carrying foreign payloads
(io::Error, DecodingError, ImageError, parse errors) are modelled as bare
constructors; the String-carrying variants keep their message. -/
inductive DmiError where
  | IoError : DmiError
  | PngDecoding : DmiError
  | ImageError : DmiError
  | FromUtf8 : DmiError
  | ParseInt : DmiError
  | ParseFloat : DmiError
  | InvalidChunkType (chunk_type : List Nat) : DmiError
  | CrcMismatch (stated calculated : Nat) : DmiError
  | Generic (msg : String) : DmiError
  | BlockEntry (msg : String) : DmiError
  | IconStateErr (msg : String) : DmiError
  | Encoding (msg : String) : DmiError
  | Conversion (msg : String) : DmiError
deriving DecidableEq, Repr

/-- Discriminator: is this error the CrcMismatch variant? -/
def DmiError.isCrcMismatch : DmiError → Bool
  | .CrcMismatch _ _ => true
  | _ => false

/-- Result of running a piece of code that can panic: either a panic, an
error return, or a value. -/
inductive LResult (α : Type) where
  | panicked : LResult α
  | fail (e : DmiError) : LResult α
  | ok (a : α) : LResult α
deriving DecidableEq, Repr

/-- Discriminator: did the computation fail with the CrcMismatch variant? -/
def LResult.failIsCrcMismatch {α : Type} : LResult α → Bool
  | .fail e => e.isCrcMismatch
  | _ => false

instance {ε α : Type} [DecidableEq ε] [DecidableEq α] : DecidableEq (Except ε α) := by
  intro a b
  cases a <;> cases b
  case error.error x y => exact decidable_of_iff (x = y) (by simp)
  case ok.ok x y => exact decidable_of_iff (x = y) (by simp)
  all_goals exact isFalse (by simp)

-- Static parts of the error messages of the source (format! interpolations dropped).
def msgChunkTooSmall : String := "Failed to load Chunk. Supplied reader contained size lower than the required 12."
def msgChunkBadType : String := "Failed to load Chunk. Type contained unlawful characters."
def msgChunkBadCrc : String := "Failed to load Chunk. Supplied CRC invalid."
def msgZtxtNoMethod : String := "Failed to load RawZtxtData from reader, during compression method reading."
def msgZtxtWrongType : String := "Failed to convert RawGenericChunk into RawZtxtChunk. Wrong type."
def msgIendNonEmpty : String := "Failed to convert RawGenericChunk into RawIendChunk. Non-empty data field."
def msgIendWrongType : String := "Failed to convert RawGenericChunk into RawIendChunk. Wrong type."
def msgIendWrongCrc : String := "Failed to convert RawGenericChunk into RawIendChunk. Mismatching CRC."
def msgDmiTooSmall : String := "Failed to load DMI. Supplied reader contained size lower than the required 72."
def msgBadPngHeader : String := "PNG header mismatch."
def msgNoIend : String := "Failed to load DMI. Buffer end reached without finding an IEND chunk."
def msgNoIhdr : String := "Failed to load DMI. Buffer end reached without finding an IHDR chunk."
def msgNoIdat : String := "Failed to load DMI. Buffer end reached without finding an IDAT chunk."
def msgShortWrite : String := "Failed to save DMI. Buffer unable to hold the data."
def msgBadIhdrMeta : String := "Failed to load DMI. IHDR chunk is not in the correct location (1st chunk), has an invalid size, or an invalid identifier."
def msgNoZtxtMeta : String := "Failed to load DMI. zTXt chunk was not found or is after the first IDAT chunk."

/-- The RawGenericChunk struct from chunk.rs; the [u8; 4] fields are
four-byte lists. -/
structure RawGenericChunk where
  data_length : List Nat
  chunk_type : List Nat
  data : List Nat
  crc : List Nat
deriving DecidableEq, Repr

/-- The chunk-type character check from chunk.rs: every byte in A-Z or a-z. -/
def validChunkTypeB (chunk_type : List Nat) : Bool :=
  chunk_type.all (fun c => (65 ≤ c && c ≤ 90) || (97 ≤ c && c ≤ 122))

/-- RawGenericChunk::load from chunk.rs, reading an entire byte buffer:
length check, field extraction by index, type character check, CRC check.
The indexed array reads of the source are expressed as take/drop slices. -/
def RawGenericChunk.load (chunk_bytes : List Nat) : Except DmiError RawGenericChunk :=
  let chunk_length := chunk_bytes.length
  if chunk_length < 12 then .error (.Generic msgChunkTooSmall)
  else
    let data_length := chunk_bytes.take 4
    let chunk_type := (chunk_bytes.drop 4).take 4
    if ¬ validChunkTypeB chunk_type then .error (.Generic msgChunkBadType)
    else
      let data := (chunk_bytes.drop 8).take (chunk_length - 12)
      let crc := chunk_bytes.drop (chunk_length - 4)
      if u32_from_be4 crc ≠ calculate_crc (chunk_type ++ data) then
        .error (.Generic msgChunkBadCrc)
      else .ok ⟨data_length, chunk_type, data, crc⟩

/-- RawGenericChunk::save with an in-memory Vec writer: the four writes
always succeed in full, producing the concatenation of the fields. -/
def RawGenericChunk.saveBytes (c : RawGenericChunk) : List Nat :=
  c.data_length ++ c.chunk_type ++ c.data ++ c.crc

/-- The zTXt chunk type bytes. -/
def ztxtTypeBytes : List Nat := [122, 84, 88, 116]

/-- The RawZtxtData struct from ztxt.rs. -/
structure RawZtxtData where
  keyword : List Nat
  null_separator : Nat
  compression_method : Nat
  compressed_text : List Nat
deriving DecidableEq, Repr

/-- RawZtxtData::load from ztxt.rs: take_while collects the keyword and
consumes the NUL terminator; the following byte is the compression method
and the rest is the compressed text. Missing method byte is an error. -/
def RawZtxtData.load (data_bytes : List Nat) : Except DmiError RawZtxtData :=
  let keyword := data_bytes.takeWhile (fun x => x != 0)
  match data_bytes.get? (keyword.length + 1) with
  | none => .error (.Generic msgZtxtNoMethod)
  | some compression_method =>
      .ok ⟨keyword, 0, compression_method, data_bytes.drop (keyword.length + 2)⟩

/-- RawZtxtData::save with a Vec writer: keyword, NUL, method, text. -/
def RawZtxtData.saveBytes (d : RawZtxtData) : List Nat :=
  d.keyword ++ [d.null_separator] ++ [d.compression_method] ++ d.compressed_text

/-- The RawZtxtChunk struct from ztxt.rs. -/
structure RawZtxtChunk where
  data_length : List Nat
  chunk_type : List Nat
  data : RawZtxtData
  crc : List Nat
deriving DecidableEq, Repr

/-- TryFrom RawGenericChunk for RawZtxtChunk from ztxt.rs: type must be
zTXt; the data field is sub-parsed; length and CRC are carried over. -/
def RawZtxtChunk.tryFromGeneric (c : RawGenericChunk) : Except DmiError RawZtxtChunk :=
  if c.chunk_type ≠ ztxtTypeBytes then .error (.Generic msgZtxtWrongType)
  else
    match RawZtxtData.load c.data with
    | .error e => .error e
    | .ok d => .ok ⟨c.data_length, c.chunk_type, d, c.crc⟩

/-- RawZtxtChunk::save with a Vec writer; the source checks the count
written for the data section against the stated data_length. -/
def RawZtxtChunk.save (z : RawZtxtChunk) : Except DmiError (List Nat) :=
  if z.data.saveBytes.length < u32_from_be4 z.data_length then
    .error (.Generic msgShortWrite)
  else .ok (z.data_length ++ z.chunk_type ++ z.data.saveBytes ++ z.crc)

/-- The IEND chunk type bytes. -/
def iendTypeBytes : List Nat := [73, 69, 78, 68]

/-- The fixed IEND CRC bytes (0xAE426082). -/
def iendCrcBytes : List Nat := [174, 66, 96, 130]

/-- The RawIendChunk struct from iend.rs. -/
structure RawIendChunk where
  data_length : List Nat
  chunk_type : List Nat
  crc : List Nat
deriving DecidableEq, Repr

/-- RawIendChunk::new / Default: zero length, IEND type, fixed CRC. -/
def RawIendChunk.new : RawIendChunk := ⟨[0, 0, 0, 0], iendTypeBytes, iendCrcBytes⟩

/-- TryFrom RawGenericChunk for RawIendChunk from iend.rs: data must be
empty, type must be IEND, CRC must be the fixed value; the default chunk
is returned. -/
def RawIendChunk.tryFromGeneric (c : RawGenericChunk) : Except DmiError RawIendChunk :=
  if c.data.length > 0 then .error (.Generic msgIendNonEmpty)
  else if c.chunk_type ≠ iendTypeBytes then .error (.Generic msgIendWrongType)
  else if c.crc ≠ iendCrcBytes then .error (.Generic msgIendWrongCrc)
  else .ok RawIendChunk.new

/-- RawIendChunk::save with a Vec writer. -/
def RawIendChunk.saveBytes (c : RawIendChunk) : List Nat :=
  c.data_length ++ c.chunk_type ++ c.crc

/-- The PNG signature from lib.rs. -/
def pngHeaderBytes : List Nat := [137, 80, 78, 71, 13, 10, 26, 10]

/-- IHDR_HEADER from lib.rs: length 13 plus the IHDR type. -/
def ihdrHeaderBytes : List Nat := [0, 0, 0, 13, 73, 72, 68, 82]

def ihdrTypeBytes : List Nat := [73, 72, 68, 82]

def plteTypeBytes : List Nat := [80, 76, 84, 69]

def idatTypeBytes : List Nat := [73, 68, 65, 84]

/-- The RawDmi struct from lib.rs. -/
structure RawDmi where
  header : List Nat
  chunk_ihdr : RawGenericChunk
  chunk_ztxt : Option RawZtxtChunk
  chunk_plte : Option RawGenericChunk
  other_chunks : Option (List RawGenericChunk)
  chunks_idat : List RawGenericChunk
  chunk_iend : RawIendChunk
deriving DecidableEq, Repr

/-- The chunk walk of RawDmi::load from lib.rs. Each iteration checks that
12 header bytes remain, reads the declared data length, slices the chunk
(the source slice panics when the declared length runs past the buffer:
the panicked result), decodes it and classifies it by type; IEND ends the
walk and assembles the container, checking IHDR presence and IDAT
non-emptiness. Each iteration advances the index by at least 12 while
index + 12 must stay within the buffer, so the fuel supplied by the
wrapper (buffer length + 1) is never exhausted; the zero-fuel branch is
unreachable. -/
def RawDmi.loadLoop (fuel : Nat) (dmi_bytes : List Nat) (index : Nat)
    (ihdr : Option RawGenericChunk) (ztxt : Option RawZtxtChunk)
    (plte : Option RawGenericChunk)
    (idats others : List RawGenericChunk) : LResult RawDmi :=
  match fuel with
  | 0 => .fail (.Generic msgNoIend)
  | fuel + 1 =>
    if dmi_bytes.length < index + 12 then .fail (.Generic msgNoIend)
    else
      let chunk_data_length := u32_from_be4 ((dmi_bytes.drop index).take 4)
      if dmi_bytes.length < index + 12 + chunk_data_length then .panicked
      else
        let chunk_bytes := (dmi_bytes.drop index).take (12 + chunk_data_length)
        match RawGenericChunk.load chunk_bytes with
        | .error e => .fail e
        | .ok raw_chunk =>
          if raw_chunk.chunk_type = ihdrTypeBytes then
            RawDmi.loadLoop fuel dmi_bytes (index + 12 + chunk_data_length)
              (some raw_chunk) ztxt plte idats others
          else if raw_chunk.chunk_type = ztxtTypeBytes then
            match RawZtxtChunk.tryFromGeneric raw_chunk with
            | .error e => .fail e
            | .ok z => RawDmi.loadLoop fuel dmi_bytes (index + 12 + chunk_data_length)
                ihdr (some z) plte idats others
          else if raw_chunk.chunk_type = plteTypeBytes then
            RawDmi.loadLoop fuel dmi_bytes (index + 12 + chunk_data_length)
              ihdr ztxt (some raw_chunk) idats others
          else if raw_chunk.chunk_type = idatTypeBytes then
            RawDmi.loadLoop fuel dmi_bytes (index + 12 + chunk_data_length)
              ihdr ztxt plte (idats ++ [raw_chunk]) others
          else if raw_chunk.chunk_type = iendTypeBytes then
            match RawIendChunk.tryFromGeneric raw_chunk with
            | .error e => .fail e
            | .ok chunk_iend =>
              match ihdr with
              | none => .fail (.Generic msgNoIhdr)
              | some chunk_ihdr =>
                if idats = [] then .fail (.Generic msgNoIdat)
                else .ok ⟨pngHeaderBytes, chunk_ihdr, ztxt, plte,
                  (if others = [] then none else some others), idats, chunk_iend⟩
          else
            RawDmi.loadLoop fuel dmi_bytes (index + 12 + chunk_data_length)
              ihdr ztxt plte idats (others ++ [raw_chunk])

/-- RawDmi::load from lib.rs: minimum size check, PNG signature check,
then the chunk walk starting at offset 8. -/
def RawDmi.load (dmi_bytes : List Nat) : LResult RawDmi :=
  if dmi_bytes.length < 72 then .fail (.Generic msgDmiTooSmall)
  else if dmi_bytes.take 8 ≠ pngHeaderBytes then .fail (.Generic msgBadPngHeader)
  else RawDmi.loadLoop (dmi_bytes.length + 1) dmi_bytes 8 none none none [] []

/-- The per-chunk step of RawDmi::save: the chunk is written (a Vec writer
reports full writes) and the reported count is compared against the stated
data_length plus 12. -/
def chunkCheckedSave (c : RawGenericChunk) : Except DmiError (List Nat) :=
  if c.saveBytes.length < u32_from_be4 c.data_length + 12 then
    .error (.Generic msgShortWrite)
  else .ok c.saveBytes

/-- Writing a list of chunks in order, as the other_chunks and chunks_idat
loops of RawDmi::save do. -/
def saveChunkList (cs : List RawGenericChunk) : Except DmiError (List Nat) :=
  match cs with
  | [] => .ok []
  | c :: rest =>
    match chunkCheckedSave c with
    | .error e => .error e
    | .ok out =>
      match saveChunkList rest with
      | .error e => .error e
      | .ok outs => .ok (out ++ outs)

/-- RawDmi::save from lib.rs with a Vec writer: header, IHDR, optional
zTXt (when include_ztxt), optional PLTE, other chunks in order, IDAT
chunks in order, IEND; every write is checked for shortness. -/
def RawDmi.save (dmi : RawDmi) (include_ztxt : Bool) : Except DmiError (List Nat) :=
  if dmi.header.length < 8 then .error (.Generic msgShortWrite)
  else
    match chunkCheckedSave dmi.chunk_ihdr with
    | .error e => .error e
    | .ok ihdrOut =>
      match (if include_ztxt then
              match dmi.chunk_ztxt with
              | some z => z.save
              | none => .ok []
             else .ok []) with
      | .error e => .error e
      | .ok ztxtOut =>
        match (match dmi.chunk_plte with
               | some p => chunkCheckedSave p
               | none => .ok []) with
        | .error e => .error e
        | .ok plteOut =>
          match (match dmi.other_chunks with
                 | some cs => saveChunkList cs
                 | none => .ok []) with
          | .error e => .error e
          | .ok othersOut =>
            match saveChunkList dmi.chunks_idat with
            | .error e => .error e
            | .ok idatOut =>
              if dmi.chunk_iend.saveBytes.length <
                  u32_from_be4 dmi.chunk_iend.data_length + 12 then
                .error (.Generic msgShortWrite)
              else .ok (dmi.header ++ ihdrOut ++ ztxtOut ++ plteOut ++ othersOut
                ++ idatOut ++ dmi.chunk_iend.saveBytes)

/-- RawDmi::output_buffer_size from lib.rs: 45 fixed bytes plus the zTXt
keyword, compressed text and 14 bytes of framing when included and
present, plus data length + 12 for PLTE, other and IDAT chunks. -/
def RawDmi.output_buffer_size (dmi : RawDmi) (include_ztxt : Bool) : Nat :=
  let t0 : Nat := 45
  let t1 :=
    if include_ztxt then
      match dmi.chunk_ztxt with
      | some z => t0 + z.data.keyword.length + z.data.compressed_text.length + 14
      | none => t0
    else t0
  let t2 :=
    match dmi.chunk_plte with
    | some p => t1 + p.data.length + 12
    | none => t1
  let t3 :=
    match dmi.other_chunks with
    | some cs => cs.foldl (fun a c => a + c.data.length + 12) t2
    | none => t2
  dmi.chunks_idat.foldl (fun a c => a + c.data.length + 12) t3

/-- A well-formed chunk value: consistent length field, a u32-sized data
length, a four-byte valid type and a correct CRC field. Such values are
exactly what decoding a byte-exact chunk produces. -/
def wfChunk (c : RawGenericChunk) : Prop :=
  c.data_length = u32_to_be c.data.length ∧ c.data.length < 4294967296 ∧
    c.chunk_type.length = 4 ∧ validChunkTypeB c.chunk_type = true ∧
    (∀ b ∈ c.data, b < 256) ∧
    c.crc = u32_to_be (calculate_crc (c.chunk_type ++ c.data))

instance (c : RawGenericChunk) : Decidable (wfChunk c) := by
  unfold wfChunk; infer_instance

/-- Helper to build a well-formed chunk with a computed length and CRC. -/
def mkChunk (ty data : List Nat) : RawGenericChunk :=
  ⟨u32_to_be data.length, ty, data, u32_to_be (calculate_crc (ty ++ data))⟩

/-- The byte image of a list of chunks in order. -/
def chunksBytes (cs : List RawGenericChunk) : List Nat :=
  (cs.map RawGenericChunk.saveBytes).flatten

/-- The twelve bytes of a canonical IEND chunk. -/
def iendBytes0 : List Nat := [0, 0, 0, 0] ++ iendTypeBytes ++ iendCrcBytes

/-- The RawDmiMetadata struct from lib.rs. -/
structure RawDmiMetadata where
  chunk_ihdr : RawGenericChunk
  chunk_ztxt : RawZtxtChunk
deriving DecidableEq, Repr

/-- The state of the buffered cursor used by RawDmi::load_meta: the
Cursor over the prefetched (and possibly grown) byte vector, the cursor
position, how many window bytes hold real source data, the full source
stream and how much of it has been consumed. -/
structure MetaCursor where
  window : List Nat
  pos : Nat
  amount : Nat
  source : List Nat
  srcRead : Nat
deriving DecidableEq, Repr

/-- Cursor read_exact: n bytes from the window at the current position;
an Io error when fewer than n bytes remain in the window vector. -/
def metaReadExact (n : Nat) (st : MetaCursor) : Except DmiError (List Nat × MetaCursor) :=
  if st.pos + n ≤ st.window.length then
    .ok ((st.window.drop st.pos).take n, { st with pos := st.pos + n })
  else .error .IoError

/-- ensure_buffered_bytes from lib.rs: when the current position plus the
additional length required runs past the bytes read so far, read exactly
additional_length_required fresh bytes from the source (read_exact: an
Io error when the source has fewer), append them at the end of the valid
data and restore the cursor position. -/
def ensure_buffered_bytes (st : MetaCursor) (additional_length_required : Nat) :
    Except DmiError MetaCursor :=
  if st.pos + additional_length_required > st.amount then
    if st.srcRead + additional_length_required ≤ st.source.length then
      .ok { st with
        window := st.window.take st.amount ++
          (st.source.drop st.srcRead).take additional_length_required ++
          st.window.drop (st.amount + additional_length_required),
        amount := st.amount + additional_length_required,
        srcRead := st.srcRead + additional_length_required }
    else .error .IoError
  else .ok st

/-- The chunk-header walk of RawDmi::load_meta. Each iteration advances
the cursor by at least 12 bytes within a window never longer than 500
plus the source length, so the fuel chosen by the caller (source length
plus 500) is never exhausted; the zero-fuel branch is unreachable. -/
def loadMetaLoop (fuel : Nat) (st : MetaCursor) : Except DmiError RawZtxtChunk :=
  match fuel with
  | 0 => .error .IoError
  | fuel + 1 =>
    match metaReadExact 8 st with
    | .error e => .error e
    | .ok (chunk_header_full, st) =>
      let chunk_len := u32_from_be4 (chunk_header_full.take 4)
      let chunk_header_type := chunk_header_full.drop 4
      if chunk_header_type = idatTypeBytes ∨ chunk_header_type = iendTypeBytes then
        .error (.Generic msgNoZtxtMeta)
      else if chunk_header_type ≠ ztxtTypeBytes then
        match ensure_buffered_bytes st (chunk_len + 12) with
        | .error e => .error e
        | .ok st => loadMetaLoop fuel { st with pos := st.pos + (chunk_len + 4) }
      else
        match ensure_buffered_bytes st (chunk_len + 4) with
        | .error e => .error e
        | .ok st =>
          match metaReadExact (chunk_len + 4) st with
          | .error e => .error e
          | .ok (chunk_data, _) =>
            let chunk_full := chunk_header_full ++ chunk_data
            match RawGenericChunk.load chunk_full with
            | .error e => .error e
            | .ok raw_chunk => RawZtxtChunk.tryFromGeneric raw_chunk

/-- RawDmi::load_meta from lib.rs. The initial read fills a 500-byte
zero-initialised vector with min(500, source length) bytes (the model
assumes the reader serves as much as is available, as files do); then the
signature, the fixed-shape IHDR chunk, and the chunk-header walk. -/
def RawDmi.load_meta (bytes : List Nat) : Except DmiError RawDmiMetadata :=
  let dmi_bytes_read := min 500 bytes.length
  if dmi_bytes_read < 72 then .error (.Generic msgDmiTooSmall)
  else
    let st0 : MetaCursor :=
      ⟨bytes.take 500 ++ List.replicate (500 - dmi_bytes_read) 0, 0,
        dmi_bytes_read, bytes, dmi_bytes_read⟩
    match metaReadExact 8 st0 with
    | .error e => .error e
    | .ok (png_header, st1) =>
      if png_header ≠ pngHeaderBytes then .error (.Generic msgBadPngHeader)
      else
        match metaReadExact 25 st1 with
        | .error e => .error e
        | .ok (ihdr, st2) =>
          if ihdr.take 8 ≠ ihdrHeaderBytes then .error (.Generic msgBadIhdrMeta)
          else
            match RawGenericChunk.load ihdr with
            | .error e => .error e
            | .ok chunk_ihdr =>
              match loadMetaLoop (bytes.length + 500) st2 with
              | .error e => .error e
              | .ok chunk_ztxt => .ok ⟨chunk_ihdr, chunk_ztxt⟩

/-!
## Manifest text machinery

The manifest is text; the embedding represents text as lists of
characters so that the splitting routines of the source (str::split,
str::split_terminator, str::lines, str::contains) can be reasoned about
directly.
-/

/-- Splitting on a non-empty separator (head s0, tail srest), following
str::split: scan left to right, cut at each occurrence. The text shrinks
by at least one character whenever fuel is consumed, so the fuel chosen
by the wrapper (the text length) is never exhausted with a non-empty
text; the zero-fuel branch is unreachable. -/
def splitGo (s0 : Char) (srest : List Char) (fuel : Nat) (t : List Char) :
    List (List Char) :=
  match t with
  | [] => [[]]
  | c :: rest =>
    match fuel with
    | 0 => [t]
    | fuel + 1 =>
      if (s0 :: srest).isPrefixOf (c :: rest) then
        [] :: splitGo s0 srest fuel (rest.drop srest.length)
      else
        match splitGo s0 srest fuel rest with
        | [] => [[c]]
        | x :: xs => (c :: x) :: xs

/-- str::split with a non-empty string pattern. -/
def rustSplit (sep t : List Char) : List (List Char) :=
  match sep with
  | [] => [t]
  | s0 :: srest => splitGo s0 srest t.length t

/-- str::split_terminator: as split, but a trailing empty piece (the
string ends with the separator, or is empty) is omitted. -/
def rustSplitTerminator (sep t : List Char) : List (List Char) :=
  match (rustSplit sep t).getLast? with
  | some [] => (rustSplit sep t).dropLast
  | _ => rustSplit sep t

/-- str::contains with a non-empty string pattern. -/
def containsSeq (sep t : List Char) : Bool :=
  1 < (rustSplit sep t).length

/-- str::lines: split_terminator on newline, stripping one carriage
return at the end of each line. -/
def rustLines (t : List Char) : List (List Char) :=
  (rustSplitTerminator ['\n'] t).map (fun l =>
    match l.getLast? with
    | some c => if c = '\r' then l.dropLast else l
    | none => l)

/-- Value of an ASCII digit character. -/
def charVal (c : Char) : Nat := c.toNat - 48

/-- Value of a digit string, most significant first. -/
def digitsVal (s : List Char) : Nat := s.foldl (fun a c => a * 10 + charVal c) 0

/-- Unsigned integer parsing as u8/u32::from_str: an optional leading
plus sign, then one or more ASCII digits, rejected past the type limit. -/
def rustParseNat (limit : Nat) (s : List Char) : Except DmiError Nat :=
  let s2 := if s.head? = some '+' then s.tail else s
  if s2 = [] then .error .ParseInt
  else if ¬ s2.all (fun c => c.isDigit) then .error .ParseInt
  else if limit ≤ digitsVal s2 then .error .ParseInt
  else .ok (digitsVal s2)

def rustParseU32 (s : List Char) : Except DmiError Nat := rustParseNat 4294967296 s

def rustParseU8 (s : List Char) : Except DmiError Nat := rustParseNat 256 s

/-- The decimal-mantissa part of the f32::from_str grammar: digits,
digits dot digits?, or dot digits. -/
def decMantOk (s : List Char) : Bool :=
  match rustSplit ['.'] s with
  | [a] => a ≠ [] && a.all (fun c => c.isDigit)
  | [a, b] => (a ≠ [] || b ≠ []) && a.all (fun c => c.isDigit) && b.all (fun c => c.isDigit)
  | _ => false

/-- Token acceptance of f32::from_str: optional sign, then inf, infinity,
nan (case-insensitive) or a decimal mantissa with an optional exponent.
Delay values are kept as their accepted tokens throughout the embedding;
no property proved here depends on IEEE float semantics. -/
def f32TokenOk (s : List Char) : Bool :=
  let s1 := match s.head? with
    | some c => if c = '+' ∨ c = '-' then s.tail else s
    | none => s
  let lower := s1.map Char.toLower
  if lower = "inf".toList ∨ lower = "infinity".toList ∨ lower = "nan".toList then true
  else
    match rustSplit ['e'] lower with
    | [m] => decMantOk m
    | [m, ex] =>
      let ex2 := match ex.head? with
        | some c => if c = '+' ∨ c = '-' then ex.tail else ex
        | none => ex
      decMantOk m && ex2 ≠ [] && ex2.all (fun c => c.isDigit)
    | _ => false

-- Manifest marker strings.
def beginDmiMarker : List Char := "# BEGIN DMI".toList
def endDmiMarker : List Char := "# END DMI".toList
def stateMarker : List Char := "state = \"".toList
def eqSep : List Char := " = ".toList

-- Static parts of icon.rs error messages.
def msgNoDmiHeader : String := "Error loading icon: no DMI header found."
def msgNoVersion : String := "Error loading icon: no version header found."
def msgBadVersion : String := "Error loading icon: improper version header found."
def msgNoWidth : String := "Error loading icon: no width found."
def msgBadWidth : String := "Error loading icon: improper width found."
def msgNoHeight : String := "Error loading icon: no height found."
def msgBadHeight : String := "Error loading icon: improper height found."
def msgZeroWH : String := "Error loading icon: invalid width / height values."
def msgNoTrailerNorStates : String := "Error loading icon: no DMI trailer nor states found."
def msgNoTrailer : String := "Error loading icon: no DMI trailer found."
def msgImproperState : String := "Error loading icon: improper state found."
def msgBadStateName : String := "Error loading icon: invalid name icon_state found in metadata, should be preceded and succeeded by double-quotes."
def msgBadStateNameSize : String := "Error loading icon: invalid name icon_state found in metadata, improper size."
def msgImproperHotspot : String := "Error loading icon: improper hotspot found."
def msgMissingEssential : String := "Error loading icon: state lacks essential settings."
def msgMaxStates : String := "Error loading icon: metadata settings exceeded the maximum number of states possible."
def msgFuelOut : String := "unreachable: manifest state walk out of fuel"
def msgImagesMismatch : String := "Error saving Icon: number of images differs from the stated metadata."
def msgDelayMismatch : String := "Error saving Icon: number of frames differs from the delay entry."
def msgDelayMissing : String := "Error saving Icon: number of frames larger than one without a delay entry."
def msgFrameTooBig : String := "Specified frame is larger than the number of frames for the icon_state"
def msgBadDir : String := "Dir specified is not in the set of valid dirs for the icon_state"
def msgDirNotInOrdering : String := "Dir specified is not a valid dir within DMI ordering!"
def msgOobIndex : String := "Out of bounds index in icon_state"

/-- The Hotspot struct from icon.rs (the third manifest component is not
stored). -/
structure Hotspot where
  x : Nat
  y : Nat
deriving DecidableEq, Repr

/-- The Looping enum from icon.rs; NTimes carries the NonZeroU32 value. -/
inductive Looping where
  | Indefinitely : Looping
  | NTimes (n : Nat) : Looping
deriving DecidableEq, Repr

/-- Looping::new from icon.rs: NonZeroU32::new(x).unwrap(). The unwrap
panics when x is zero; the panic is modelled as none. -/
def Looping.new (x : Nat) : Option Looping :=
  if x = 0 then none else some (.NTimes x)

/-- The IconState struct from icon.rs, parameterised by the image type
(DynamicImage in the source). Delay entries are kept as their f32 tokens. -/
structure IconState (α : Type) where
  name : List Char
  dirs : Nat
  frames : Nat
  images : List α
  delay : Option (List (List Char))
  loop_flag : Looping
  rewind : Bool
  movement : Bool
  hotspot : Option Hotspot
  unknown_settings : Option (List (List Char × List Char))
deriving DecidableEq, Repr

/-- IconState::default from icon.rs. -/
def IconState.mkDefault (α : Type) : IconState α :=
  ⟨[], 1, 1, [], none, .Indefinitely, false, false, none, none⟩

/-- The Icon struct from icon.rs (version is the DmiVersion string). -/
structure Icon (α : Type) where
  version : List Char
  width : Nat
  height : Nat
  states : List (IconState α)
deriving DecidableEq, Repr

/-- HashMap::insert modelled on an association list: replace the value of
an existing key, append a fresh key. -/
def alInsert (m : List (List Char × List Char)) (k v : List Char) :
    List (List Char × List Char) :=
  match m with
  | [] => [(k, v)]
  | (k0, v0) :: rest => if k0 = k then (k, v) :: rest else (k0, v0) :: alInsert rest k v

/-- The mutable per-state attribute bag of the Icon::load state loop. -/
structure AttrBag where
  dirs : Option Nat
  frames : Option Nat
  delay : Option (List (List Char))
  loop_flag : Looping
  rewind : Bool
  movement : Bool
  hotspot : Option Hotspot
  unknown_settings : Option (List (List Char × List Char))
deriving DecidableEq, Repr

/-- The initial attribute bag of each state block. -/
def AttrBag.init : AttrBag := ⟨none, none, none, .Indefinitely, false, false, none, none⟩

/-- The inner attribute loop of Icon::load / Icon::load_meta: read lines
until one holds the end marker or a state opener; split each on the
separator, dispatch on the key, parse the value. A loop value of zero
panics through Looping::new. Returns the updated bag, the line that broke
the loop and the unread lines. -/
def parseAttrs (lines : List (List Char)) (bag : AttrBag) :
    LResult (AttrBag × List Char × List (List Char)) :=
  match lines with
  | [] => .fail (.Generic msgNoTrailer)
  | current_line :: rest =>
    if containsSeq endDmiMarker current_line ∨ containsSeq stateMarker current_line then
      .ok (bag, current_line, rest)
    else
      let split_version := rustSplitTerminator eqSep current_line
      if split_version.length ≠ 2 then .fail (.Generic msgImproperState)
      else
        let key := split_version.getD 0 []
        let value := split_version.getD 1 []
        if key = "\tdirs".toList then
          match rustParseU8 value with
          | .error e => .fail e
          | .ok n => parseAttrs rest { bag with dirs := some n }
        else if key = "\tframes".toList then
          match rustParseU32 value with
          | .error e => .fail e
          | .ok n => parseAttrs rest { bag with frames := some n }
        else if key = "\tdelay".toList then
          let text_delays := rustSplitTerminator [','] value
          if text_delays.all f32TokenOk then
            parseAttrs rest { bag with delay := some text_delays }
          else .fail .ParseFloat
        else if key = "\tloop".toList then
          match rustParseU32 value with
          | .error e => .fail e
          | .ok n =>
            match Looping.new n with
            | none => .panicked
            | some lf => parseAttrs rest { bag with loop_flag := lf }
        else if key = "\trewind".toList then
          match rustParseU8 value with
          | .error e => .fail e
          | .ok n => parseAttrs rest { bag with rewind := n ≠ 0 }
        else if key = "\tmovement".toList then
          match rustParseU8 value with
          | .error e => .fail e
          | .ok n => parseAttrs rest { bag with movement := n ≠ 0 }
        else if key = "\thotspot".toList then
          let text_coordinates := rustSplitTerminator [','] value
          if text_coordinates.length ≠ 3 then .fail (.Generic msgImproperHotspot)
          else
            match rustParseU32 (text_coordinates.getD 0 []) with
            | .error e => .fail e
            | .ok x =>
              match rustParseU32 (text_coordinates.getD 1 []) with
              | .error e => .fail e
              | .ok y => parseAttrs rest { bag with hotspot := some ⟨x, y⟩ }
        else
          match bag.unknown_settings with
          | none => parseAttrs rest { bag with unknown_settings := some [(key, value)] }
          | some m => parseAttrs rest { bag with unknown_settings := some (alInsert m key value) }

/-- The outer state-block loop of Icon::load_meta, on manifest lines.
Each iteration consumes at least one line, so the fuel supplied by the
wrapper (line count plus one) is never exhausted. The index arithmetic is
u32 arithmetic as in the source. maxStates is the max_possible_states
value computed from the image and metadata geometry. -/
def statesLoopGo (fuel : Nat) (lines : List (List Char)) (current_line : List Char)
    (index maxStates : Nat) (acc : List (IconState Unit)) :
    LResult (List (IconState Unit)) :=
  match fuel with
  | 0 => .fail (.Generic msgFuelOut)
  | fuel + 1 =>
    if containsSeq endDmiMarker current_line then .ok acc
    else
      let split_version := rustSplitTerminator eqSep current_line
      if split_version.length ≠ 2 ∨ split_version.getD 0 [] ≠ "state".toList then
        .fail (.Generic msgImproperState)
      else
        let name_q := split_version.getD 1 []
        if ¬ (name_q.head? = some '"') ∨ ¬ (name_q.getLast? = some '"') then
          .fail (.Generic msgBadStateName)
        else if name_q.length ≤ 1 then .fail (.Generic msgBadStateNameSize)
        else
          let name := if name_q.length = 2 then [] else (name_q.drop 1).dropLast
          match parseAttrs lines AttrBag.init with
          | .panicked => .panicked
          | .fail e => .fail e
          | .ok (bag, nextLine, rest) =>
            match bag.dirs, bag.frames with
            | some dirs, some frames =>
              let next_index := (index + dirs * frames % 4294967296) % 4294967296
              if maxStates < next_index then .fail (.Generic msgMaxStates)
              else
                statesLoopGo fuel rest nextLine next_index maxStates
                  (acc ++ [⟨name, dirs, frames, [], bag.delay, bag.loop_flag,
                    bag.rewind, bag.movement, bag.hotspot, bag.unknown_settings⟩])
            | _, _ => .fail (.Generic msgMissingEssential)

/-- The manifest-text part of Icon::load_meta: the fixed header (BEGIN
marker, version, width, height — both geometry lines required, in that
order), the zero check, then the state blocks. maxStates abstracts the
max_possible_states value that the source computes from the IHDR
dimensions. -/
def Icon.parseMeta (lines : List (List Char)) (maxStates : Nat) : LResult (Icon Unit) :=
  match lines with
  | [] => .fail (.Generic msgNoDmiHeader)
  | l0 :: r0 =>
    if l0 ≠ beginDmiMarker then .fail (.Generic msgNoDmiHeader)
    else
      match r0 with
      | [] => .fail (.Generic msgNoVersion)
      | l1 :: r1 =>
        let sv := rustSplitTerminator eqSep l1
        if sv.length ≠ 2 ∨ sv.getD 0 [] ≠ "version".toList then .fail (.Generic msgBadVersion)
        else
          let version := sv.getD 1 []
          match r1 with
          | [] => .fail (.Generic msgNoWidth)
          | l2 :: r2 =>
            let sw := rustSplitTerminator eqSep l2
            if sw.length ≠ 2 ∨ sw.getD 0 [] ≠ "\twidth".toList then .fail (.Generic msgBadWidth)
            else
              match rustParseU32 (sw.getD 1 []) with
              | .error e => .fail e
              | .ok width =>
                match r2 with
                | [] => .fail (.Generic msgNoHeight)
                | l3 :: r3 =>
                  let sh := rustSplitTerminator eqSep l3
                  if sh.length ≠ 2 ∨ sh.getD 0 [] ≠ "\theight".toList then
                    .fail (.Generic msgBadHeight)
                  else
                    match rustParseU32 (sh.getD 1 []) with
                    | .error e => .fail e
                    | .ok height =>
                      if width = 0 ∨ height = 0 then .fail (.Generic msgZeroWH)
                      else
                        match r3 with
                        | [] => .fail (.Generic msgNoTrailerNorStates)
                        | l4 :: r4 =>
                          match statesLoopGo (r4.length + 1) r4 l4 0 maxStates [] with
                          | .panicked => .panicked
                          | .fail e => .fail e
                          | .ok states => .ok ⟨version, width, height, states⟩

/-- What Icon::load_meta does after the four header lines have been
consumed: the zero check on width and height, then the state-block walk
over the remaining lines. -/
def parseMetaAfterHeader (v : List Char) (w h mx : Nat) (rest : List (List Char)) :
    LResult (Icon Unit) :=
  if w = 0 ∨ h = 0 then .fail (.Generic msgZeroWH)
  else
    match rest with
    | [] => .fail (.Generic msgNoTrailerNorStates)
    | l4 :: r4 =>
      match statesLoopGo (r4.length + 1) r4 l4 0 mx [] with
      | .panicked => .panicked
      | .fail e => .fail e
      | .ok states => .ok ⟨v, w, h, states⟩

/-- Decimal rendering of a natural number, as the Display implementations
of u8/u32 used by the format! calls of Icon::save. The value shrinks by a
factor of ten whenever fuel is consumed, so the fuel chosen by the
wrapper (the value plus one) is never exhausted; the zero-fuel branch is
unreachable. -/
def natToTextGo (fuel n : Nat) : List Char :=
  match fuel with
  | 0 => []
  | fuel + 1 =>
    if n < 10 then [Char.ofNat (48 + n)]
    else natToTextGo fuel (n / 10) ++ [Char.ofNat (48 + n % 10)]

def natToText (n : Nat) : List Char := natToTextGo (n + 1) n

/-- Vec::join on text pieces with a separator character. -/
def joinSep (sep : Char) (pieces : List (List Char)) : List Char :=
  match pieces with
  | [] => []
  | [p] => p
  | p :: rest => p ++ [sep] ++ joinSep sep rest

/-- The per-state manifest text pushed by Icon::save: the state line with
the name written verbatim, dirs, frames; for animated states the checked
delay list and the loop, rewind and movement lines; the hotspot line with
its constant third component; the unknown settings. Fails as the source
does when the image count or delay count disagrees with the metadata.
The image-count comparison is between u32 casts as in the source. -/
def IconState.signatureText {α : Type} (s : IconState α) : Except DmiError (List Char) :=
  if s.images.length % 4294967296 ≠ s.dirs * s.frames % 4294967296 then
    .error (.Generic msgImagesMismatch)
  else
    match (if s.frames > 1 then
        match s.delay with
        | some delay =>
          if delay.length % 4294967296 ≠ s.frames then .error (.Generic msgDelayMismatch)
          else .ok ("\tdelay = ".toList ++ joinSep ',' delay ++ ['\n'] ++
            (match s.loop_flag with
             | .NTimes n => "\tloop = ".toList ++ natToText n ++ ['\n']
             | .Indefinitely => []) ++
            (if s.rewind then "\trewind = 1\n".toList else []) ++
            (if s.movement then "\tmovement = 1\n".toList else []))
        | none => .error (.Generic msgDelayMissing)
      else (.ok [] : Except DmiError (List Char))) with
    | .error e => .error e
    | .ok mid =>
      .ok ("state = \"".toList ++ s.name ++ "\"\n\tdirs = ".toList ++ natToText s.dirs
        ++ "\n\tframes = ".toList ++ natToText s.frames ++ ['\n'] ++ mid ++
        (match s.hotspot with
         | some hsp => "\thotspot = ".toList ++ natToText hsp.x ++ [','] ++
             natToText hsp.y ++ ",1\n".toList
         | none => []) ++
        (match s.unknown_settings with
         | some m =>
           (m.map (fun kv => ['\t'] ++ kv.1 ++ " = ".toList ++ kv.2 ++ ['\n'])).flatten
         | none => []))

/-- The concatenation of the per-state manifest texts, in state order, as
the loop of Icon::save builds it. -/
def statesSignature {α : Type} (states : List (IconState α)) : Except DmiError (List Char) :=
  match states with
  | [] => .ok []
  | s :: rest =>
    match s.signatureText with
    | .error e => .error e
    | .ok piece =>
      match statesSignature rest with
      | .error e => .error e
      | .ok more => .ok (piece ++ more)

/-- The whole manifest text built by Icon::save: header lines, the state
blocks in order, the end marker. -/
def Icon.saveSignature {α : Type} (icon : Icon α) : Except DmiError (List Char) :=
  match statesSignature icon.states with
  | .error e => .error e
  | .ok body =>
    .ok ("# BEGIN DMI\nversion = ".toList ++ icon.version ++ "\n\twidth = ".toList
      ++ natToText icon.width ++ "\n\theight = ".toList ++ natToText icon.height
      ++ ['\n'] ++ body ++ "# END DMI\n".toList)

/-!
## Directions and icon-state lookup
-/

-- The bitflags values of dirs.rs.
def dirNORTH : Nat := 1
def dirSOUTH : Nat := 2
def dirEAST : Nat := 4
def dirWEST : Nat := 8
def dirSOUTHEAST : Nat := dirSOUTH ||| dirEAST
def dirSOUTHWEST : Nat := dirSOUTH ||| dirWEST
def dirNORTHEAST : Nat := dirNORTH ||| dirEAST
def dirNORTHWEST : Nat := dirNORTH ||| dirWEST

/-- CARDINAL_DIRS from dirs.rs. -/
def CARDINAL_DIRS : List Nat := [dirNORTH, dirSOUTH, dirEAST, dirWEST]

/-- ALL_DIRS from dirs.rs. -/
def ALL_DIRS : List Nat :=
  [dirNORTH, dirSOUTH, dirEAST, dirWEST,
   dirNORTHEAST, dirNORTHWEST, dirSOUTHEAST, dirSOUTHWEST]

/-- DIR_ORDERING from icon.rs. -/
def DIR_ORDERING : List Nat :=
  [dirSOUTH, dirNORTH, dirEAST, dirWEST,
   dirSOUTHEAST, dirSOUTHWEST, dirNORTHEAST, dirNORTHWEST]

/-- dir_to_dmi_index from icon.rs. -/
def dir_to_dmi_index (dir : Nat) : Option Nat :=
  if dir = dirSOUTH then some 0
  else if dir = dirNORTH then some 1
  else if dir = dirEAST then some 2
  else if dir = dirWEST then some 3
  else if dir = dirSOUTHEAST then some 4
  else if dir = dirSOUTHWEST then some 5
  else if dir = dirNORTHEAST then some 6
  else if dir = dirNORTHWEST then some 7
  else none

/-- The usize expression (idx + 1) * frame - 1 of IconState::get_image;
the subtraction wraps modulo 2^64 when the product is zero (frame = 0).
The product itself cannot reach 2^64: idx is at most 7 and frame is a
u32 value. -/
def imageIdxUsize (idx frame : Nat) : Nat :=
  ((idx + 1) * frame + 18446744073709551615) % 18446744073709551616

/-- IconState::get_image from icon.rs: the frame bound check, the
direction-validity check for dirs of 1, 4 and 8, the DMI-ordering lookup
and the Vec::get on the computed index. -/
def IconState.get_image {α : Type} (s : IconState α) (dir : Nat) (frame : Nat) :
    Except DmiError α :=
  if s.frames < frame then .error (.IconStateErr msgFrameTooBig)
  else if (s.dirs = 1 ∧ dir ≠ dirSOUTH) ∨ (s.dirs = 4 ∧ dir ∉ CARDINAL_DIRS)
      ∨ (s.dirs = 8 ∧ dir ∉ ALL_DIRS) then
    .error (.IconStateErr msgBadDir)
  else
    match dir_to_dmi_index dir with
    | none => .error (.IconStateErr msgDirNotInOrdering)
    | some idx =>
      let image_idx := imageIdxUsize idx frame
      match s.images.get? image_idx with
      | some image => .ok image
      | none => .error (.IconStateErr msgOobIndex)

/-- The valid direction set §4.2 assigns to a dirs count: SOUTH only for
one dir, the four cardinals for four, all eight for eight. -/
def dirValidForCount (dirs dir : Nat) : Prop :=
  (dirs = 1 ∧ dir = dirSOUTH) ∨ (dirs = 4 ∧ dir ∈ CARDINAL_DIRS) ∨
    (dirs = 8 ∧ dir ∈ ALL_DIRS)

instance (dirs dir : Nat) : Decidable (dirValidForCount dirs dir) := by
  unfold dirValidForCount; infer_instance

/-- The DMI ordering position of a direction (0 when the direction is
not a single named value). -/
def dmiOrdinal (dir : Nat) : Nat := (dir_to_dmi_index dir).getD 0

/-- The final Vec::get step of get_image: the tile at the index when in
range, the out-of-bounds IconState error otherwise. -/
def tileLookup {α : Type} (images : List α) (idx : Nat) : Except DmiError α :=
  match images.get? idx with
  | some image => .ok image
  | none => .error (.IconStateErr msgOobIndex)

/-!
## Concrete inputs used by counterexamples, failing-input evaluations
and witnesses
-/

/-- A well-formed IHDR chunk with thirteen zero data bytes. -/
def ihdrChunk0 : RawGenericChunk := mkChunk ihdrTypeBytes (List.replicate 13 0)

/-- A well-formed empty IDAT chunk. -/
def idatChunk0 : RawGenericChunk := mkChunk idatTypeBytes []

/-- A well-formed zTXt chunk: one keyword byte, the NUL separator, the
zlib method byte, no compressed text. -/
def ztxtChunk0 : RawGenericChunk := mkChunk ztxtTypeBytes [75, 0, 0]

/-- A 72-byte PNG whose zTXt chunk sits after the IDAT chunk. -/
def exC1bytes : List Nat :=
  pngHeaderBytes ++ ihdrChunk0.saveBytes ++ idatChunk0.saveBytes ++
    ztxtChunk0.saveBytes ++ iendBytes0

/-- The container RawDmi::load produces for exC1bytes. -/
def exC1dmi : RawDmi :=
  ⟨pngHeaderBytes, ihdrChunk0,
    some ⟨ztxtChunk0.data_length, ztxtTypeBytes, ⟨[75], 0, 0, []⟩, ztxtChunk0.crc⟩,
    none, none, [idatChunk0], RawIendChunk.new⟩

/-- The bytes RawDmi::save emits for exC1dmi: the zTXt chunk moved before
the IDAT chunk. -/
def exC1saved : List Nat :=
  pngHeaderBytes ++ ihdrChunk0.saveBytes ++ ztxtChunk0.saveBytes ++
    idatChunk0.saveBytes ++ iendBytes0

/-- A twelve-byte chunk of type ABCD whose stated CRC has one bit
flipped. -/
def exC5bytes : List Nat :=
  [0, 0, 0, 0, 65, 66, 67, 68] ++ u32_to_be (calculate_crc [65, 66, 67, 68] ^^^ 1)

/-- A 448-data-byte ancillary chunk of type othr. Its CRC field holds the
CRC-32 of the type and data (769122828, stated here as a literal so that
evaluating the container below does not have to re-run the 452-byte CRC
fold; calculate_crc on that input computes the same value). -/
def fillChunkC6 : RawGenericChunk :=
  ⟨u32_to_be 448, [111, 116, 104, 114], List.replicate 448 0, [45, 215, 226, 12]⟩

/-- A 517-byte valid PNG with no zTXt chunk: signature, IHDR, one large
ancillary chunk, an empty IDAT, IEND. Walking it in load_meta crosses the
500-byte prefetch boundary inside the ancillary chunk. -/
def exC6bytes : List Nat :=
  pngHeaderBytes ++ ihdrChunk0.saveBytes ++ fillChunkC6.saveBytes ++
    idatChunk0.saveBytes ++ iendBytes0

/-- A RawDmi whose IHDR chunk carries fourteen data bytes; every field a
Rust value of the corresponding type. -/
def exC7dmi : RawDmi :=
  ⟨pngHeaderBytes, ⟨[0, 0, 0, 14], ihdrTypeBytes, List.replicate 14 0, [0, 0, 0, 0]⟩,
    none, none, none, [⟨[0, 0, 0, 0], idatTypeBytes, [], [0, 0, 0, 0]⟩],
    RawIendChunk.new⟩

/-- A 72-byte input for RawDmi::load: valid signature, then a chunk
declaring 61 data bytes although only 52 bytes follow the declaration. -/
def exC9bytes : List Nat :=
  pngHeaderBytes ++ [0, 0, 0, 61] ++ ihdrTypeBytes ++ List.replicate 56 0

/-- An icon state with one tile, one dir and one frame. -/
def exState10 : IconState Nat :=
  ⟨['a'], 1, 1, [7], none, .Indefinitely, false, false, none, none⟩

/-- Modelled from the spec: the escaping §4.7 prescribes for state names
on save — backslash becomes double backslash, double-quote becomes
backslash quote. Icon::save has no such escaping; this definition exists
only to compare the specified output with the code's output. -/
def specEscapeName (name : List Char) : List Char :=
  (name.map (fun c =>
    if c = '\\' then ['\\', '\\']
    else if c = '"' then ['\\', '"']
    else [c])).flatten

/-- The name a backslash inside: the characters of a-backslash-b. -/
def nameC4 : List Char := ['a', '\\', 'b']

/-- A single-tile icon state named a-backslash-b. -/
def exStateC4 : IconState Unit :=
  ⟨nameC4, 1, 1, [()], none, .Indefinitely, false, false, none, none⟩

/-- A two-frame icon state with loop_flag NTimes 3. -/
def exStateLoop3 : IconState Unit :=
  ⟨['x'], 1, 2, [(), ()], some [['1'], ['2']], .NTimes 3, false, false, none, none⟩

/-- The same two-frame icon state with loop_flag Indefinitely. -/
def exStateLoopInd : IconState Unit :=
  ⟨['x'], 1, 2, [(), ()], some [['1'], ['2']], .Indefinitely, false, false, none, none⟩

/-- The bytes RawDmi::save writes for exC7dmi. -/
def exC7saved : List Nat :=
  pngHeaderBytes ++ ([0, 0, 0, 14] ++ ihdrTypeBytes ++ List.replicate 14 0 ++ [0, 0, 0, 0])
    ++ ([0, 0, 0, 0] ++ idatTypeBytes ++ [0, 0, 0, 0]) ++ iendBytes0

/-- A twelve-byte chunk of type ABCD with a correct CRC. -/
def exC5good : List Nat := [0, 0, 0, 0, 65, 66, 67, 68] ++ u32_to_be (calculate_crc [65, 66, 67, 68])

/-- A well-formed container with a thirteen-byte IHDR data field. -/
def exC7wit : RawDmi :=
  ⟨pngHeaderBytes, ihdrChunk0, none, none, none, [idatChunk0], RawIendChunk.new⟩

/-- A four-dir two-frame icon state with eight tiles. -/
def exState8 : IconState Nat :=
  ⟨['s'], 4, 2, [1, 2, 3, 4, 5, 6, 7, 8], some [['1'], ['1']], .Indefinitely,
    false, false, none, none⟩

/-- A well-formed ancillary chunk of type othr with three data bytes. -/
def othrChunk0 : RawGenericChunk := mkChunk [111, 116, 104, 114] [1, 2, 3]

/-- The lengths the Rust types impose on the fixed-size fields of a
chunk: the [u8; 4] length, type and CRC arrays. -/
def chunkFieldsOk (c : RawGenericChunk) : Prop :=
  c.data_length.length = 4 ∧ c.chunk_type.length = 4 ∧ c.crc.length = 4

instance (c : RawGenericChunk) : Decidable (chunkFieldsOk c) := by
  unfold chunkFieldsOk; infer_instance

/-- The lengths the Rust types impose on every fixed-size field of a
RawDmi value: the [u8; 8] header and the [u8; 4] arrays of every chunk. -/
def rawDmiFieldsOk (dmi : RawDmi) : Prop :=
  dmi.header.length = 8 ∧ chunkFieldsOk dmi.chunk_ihdr ∧
    (∀ z ∈ dmi.chunk_ztxt,
      z.data_length.length = 4 ∧ z.chunk_type.length = 4 ∧ z.crc.length = 4) ∧
    (∀ p ∈ dmi.chunk_plte, chunkFieldsOk p) ∧
    (∀ cs ∈ dmi.other_chunks, ∀ c ∈ cs, chunkFieldsOk c) ∧
    (∀ c ∈ dmi.chunks_idat, chunkFieldsOk c) ∧
    dmi.chunk_iend.data_length.length = 4 ∧ dmi.chunk_iend.chunk_type.length = 4 ∧
    dmi.chunk_iend.crc.length = 4

instance (dmi : RawDmi) : Decidable (rawDmiFieldsOk dmi) := by
  unfold rawDmiFieldsOk; infer_instance

/-- The bytes RawDmi::save writes for the zTXt slot. -/
def ztxtOutBytes (inc : Bool) (oz : Option RawZtxtChunk) : List Nat :=
  match inc, oz with
  | true, some z => z.data_length ++ z.chunk_type ++ z.data.saveBytes ++ z.crc
  | _, _ => []

/-- The bytes RawDmi::save writes for the PLTE slot. -/
def plteOutBytes (op : Option RawGenericChunk) : List Nat :=
  match op with
  | some p => p.saveBytes
  | none => []

/-- The bytes RawDmi::save writes for the other_chunks slot. -/
def othersOutBytes (ocs : Option (List RawGenericChunk)) : List Nat :=
  match ocs with
  | some cs => chunksBytes cs
  | none => []

/-- The zTXt summand of the output_buffer_size formula of the spec. -/
def ztxtBudget (inc : Bool) (oz : Option RawZtxtChunk) : Nat :=
  match inc, oz with
  | true, some z => z.data.keyword.length + z.data.compressed_text.length + 14
  | _, _ => 0

/-- The PLTE summand of the output_buffer_size formula of the spec. -/
def plteBudget (op : Option RawGenericChunk) : Nat :=
  match op with
  | some p => p.data.length + 12
  | none => 0

/-- The other-chunks summand of the output_buffer_size formula of the spec. -/
def othersBudget (ocs : Option (List RawGenericChunk)) : Nat :=
  match ocs with
  | some cs => (cs.map (fun c => c.data.length + 12)).sum
  | none => 0

/-- The IDAT summand of the output_buffer_size formula of the spec. -/
def idatBudget (cs : List RawGenericChunk) : Nat :=
  (cs.map (fun c => c.data.length + 12)).sum

/-- The canonical chunk layout emitted by RawDmi::save: signature, IHDR,
zTXt, optional PLTE, the other chunks, the IDAT chunks, IEND. -/
def canonicalDmiBytes (ihdr z : RawGenericChunk) (plte : Option RawGenericChunk)
    (others idats : List RawGenericChunk) : List Nat :=
  pngHeaderBytes ++ ihdr.saveBytes ++ z.saveBytes ++
    (match plte with | some p => p.saveBytes | none => []) ++
    chunksBytes others ++ chunksBytes idats ++ iendBytes0

/-- The manifest text Icon::save emits for a single-state icon whose
state has one dir, one frame and no optional attributes: header lines,
the state line with the name written verbatim, dirs and frames lines,
the end marker. -/
def c4SigBytes (name v : List Char) (w h : Nat) : List Char :=
  "# BEGIN DMI\nversion = ".toList ++ v ++ "\n\twidth = ".toList ++ natToText w ++
    "\n\theight = ".toList ++ natToText h ++ ['\n'] ++
    "state = \"".toList ++ name ++ "\"\n\tdirs = 1\n\tframes = 1\n".toList ++
    "# END DMI\n".toList

/-!
## Theorems
-/

/-- C2. The spec says a loop = 0 attribute line parses to the
Indefinitely loop flag. On the code, Looping::new(0) evaluates
NonZeroU32::new(0).unwrap(), which panics, so the attribute loop kills
the parse instead. A loop value of 3 does parse to NTimes 3, and save
emits a loop line exactly for the NTimes flag, never for Indefinitely:
the two-frame states below differ only in the flag and the second
signature carries no loop line. -/
theorem c2_loop_zero_panics :
    parseAttrs ["\tloop = 0".toList] AttrBag.init = .panicked ∧
    Looping.new 0 = none ∧
    Looping.new 3 = some (.NTimes 3) ∧
    (parseAttrs ["\tloop = 3".toList, "# END DMI".toList] AttrBag.init =
      .ok ({ AttrBag.init with loop_flag := .NTimes 3 }, "# END DMI".toList, [])) ∧
    IconState.signatureText exStateLoop3 =
      .ok ("state = \"x\"\n\tdirs = 1\n\tframes = 2\n\tdelay = 1,2\n\tloop = 3\n".toList) ∧
    IconState.signatureText exStateLoopInd =
      .ok ("state = \"x\"\n\tdirs = 1\n\tframes = 2\n\tdelay = 1,2\n".toList) := by
  decide

/-- C9. RawDmi::load only checks that 12 bytes remain before slicing
dmi_bytes[index..(index + 12 + chunk_data_length)]: on this 72-byte
input, whose first chunk declares 61 data bytes although only 52 bytes
follow the header, the slice upper bound 81 exceeds the buffer length 72
and the source panics instead of returning an error. -/
theorem c9_load_slice_panics :
    RawDmi.load exC9bytes = .panicked ∧
    exC9bytes.length = 72 ∧
    exC9bytes.length < 8 + 12 + u32_from_be4 [0, 0, 0, 61] := by
  decide

set_option maxRecDepth 400000 in
/-- C10. IconState::get_image(SOUTH, 0) on a one-frame state passes the
frames < frame validation (frames is never below zero), and the usize
index (dir_ordinal + 1) * frame - 1 = 1 * 0 - 1 underflows: over the
integers the index is negative, and the usize subtraction wraps to
2^64 - 1 (debug builds panic at this subtraction instead). The wrapped
lookup then misses and the call reports an out-of-bounds IconState
error rather than rejecting the invalid frame. -/
theorem c10_get_image_underflow :
    imageIdxUsize 0 0 = 18446744073709551615 ∧
    ((0 + 1) * 0 - 1 : Int) < 0 ∧
    dir_to_dmi_index dirSOUTH = some 0 ∧
    ¬ exState10.frames < 0 ∧
    IconState.get_image exState10 dirSOUTH 0 = .error (.IconStateErr msgOobIndex) := by
  decide

set_option maxRecDepth 400000 in
/-- C6. A 517-byte valid PNG without any zTXt chunk: signature, IHDR, a
448-data-byte ancillary chunk (type othr), an empty IDAT, IEND. The
spec says the metadata-only load fails with the missing-zTXt error, but
ensure_buffered_bytes reads additional_length_required fresh bytes
(460) instead of the missing deficit when the skip over the ancillary
chunk crosses the 500-byte prefetch, and the source has only 17 bytes
left: load_meta fails with an Io error instead. -/
theorem c6_load_meta_io_error :
    RawDmi.load_meta exC6bytes = .error .IoError ∧
    exC6bytes.length = 517 ∧
    (exC6bytes.drop 12).take 4 = ihdrTypeBytes ∧
    (exC6bytes.drop 37).take 4 = [111, 116, 104, 114] ∧
    (exC6bytes.drop 497).take 4 = idatTypeBytes ∧
    (exC6bytes.drop 509).take 4 = iendTypeBytes := by
  decide

set_option maxRecDepth 400000 in
/-- C1 counterexample. RawDmi::load accepts this 72-byte PNG whose zTXt
chunk sits after its IDAT chunk, but RawDmi::save always writes the
zTXt slot before the IDAT chunks, so saving the freshly loaded
container does not reproduce the input. -/
theorem c1_roundtrip_counterexample :
    RawDmi.load exC1bytes = .ok exC1dmi ∧
    RawDmi.save exC1dmi true = .ok exC1saved ∧
    exC1saved ≠ exC1bytes := by
  decide

/-- C3 counterexample. The spec says the width and height lines may come
in either order and that either may be omitted (defaulting to 32), but
Icon::load requires the width line immediately after the version line:
with height first, and with both lines missing, the parse fails. -/
theorem c3_header_counterexample :
    Icon.parseMeta
      (["# BEGIN DMI", "version = 4.0", "\theight = 32", "\twidth = 32",
        "# END DMI"].map String.toList) 1 = .fail (.Generic msgBadWidth) ∧
    Icon.parseMeta
      (["# BEGIN DMI", "version = 4.0", "state = \"a\"", "\tdirs = 1",
        "\tframes = 1", "# END DMI"].map String.toList) 1 =
      .fail (.Generic msgBadWidth) := by
  decide

/-- C4 counterexample. For the state named a-backslash-b, Icon::save
writes the name into the state line verbatim: the manifest text holds a
single backslash, not the backslash-escaped form the spec prescribes. -/
theorem c4_escape_counterexample :
    IconState.signatureText exStateC4 =
      .ok ("state = \"a\\b\"\n\tdirs = 1\n\tframes = 1\n".toList) ∧
    specEscapeName nameC4 = "a\\\\b".toList ∧
    ("state = \"a\\b\"\n\tdirs = 1\n\tframes = 1\n".toList : List Char) ≠
      "state = \"".toList ++ specEscapeName nameC4 ++
        "\"\n\tdirs = 1\n\tframes = 1\n".toList := by
  decide

set_option maxRecDepth 100000 in
/-- C5 counterexample. On a twelve-byte chunk of type ABCD whose stated
CRC differs (by one flipped bit) from the CRC-32 of its type and data,
loading fails — but with the Generic variant carrying the CRC message,
not with the DmiError::CrcMismatch variant the claim names: that
variant is declared in error.rs and never constructed. -/
theorem c5_crc_variant_counterexample :
    RawGenericChunk.load exC5bytes = .error (.Generic msgChunkBadCrc) ∧
    DmiError.isCrcMismatch (.Generic msgChunkBadCrc) = false ∧
    u32_from_be4 (exC5bytes.drop 8) ≠ calculate_crc [65, 66, 67, 68] := by
  decide

set_option maxRecDepth 100000 in
/-- C7 counterexample. output_buffer_size always counts 25 bytes for the
IHDR chunk, but RawDmi::save writes the chunk as stored: for this
container, whose IHDR carries fourteen data bytes, save succeeds with
58 bytes while output_buffer_size reports 57. -/
theorem c7_buffer_size_counterexample :
    RawDmi.save exC7dmi true = .ok exC7saved ∧
    exC7saved.length = 58 ∧
    RawDmi.output_buffer_size exC7dmi true = 57 := by
  decide

theorem u32_roundtrip (n : Nat) (h : n < 4294967296) : u32_from_be4 (u32_to_be n) = n := by
  simp only [u32_to_be, u32_from_be4, List.getD_cons_zero, List.getD_cons_succ]
  omega

theorem crc_iter_lt (k c : Nat) (h : c < 4294967296) :
    (fun c => (if c % 2 = 1 then 0xedb88320 else 0) ^^^ (c / 2))^[k] c < 4294967296 := by
  induction k generalizing c with
  | zero => simpa using h
  | succ k ih =>
    rw [Function.iterate_succ_apply]
    apply ih
    have h1 : (if c % 2 = 1 then 0xedb88320 else 0) < 2 ^ 32 := by split <;> norm_num
    have h2 : c / 2 < 2 ^ 32 := by omega
    have := Nat.xor_lt_two_pow h1 h2
    omega

theorem update_crc_lt (crc m : Nat) (hc : crc < 4294967296) (hm : m < 4294967296) :
    update_crc crc m < 4294967296 := by
  unfold update_crc
  apply crc_iter_lt
  have := Nat.xor_lt_two_pow (show crc < 2 ^ 32 by omega) (show m < 2 ^ 32 by omega)
  omega

theorem crc_foldl_lt (l : List Nat) (hl : ∀ b ∈ l, b < 4294967296) :
    ∀ init, init < 4294967296 → l.foldl update_crc init < 4294967296 := by
  induction l with
  | nil => intro init h; simpa using h
  | cons b rest ih =>
    intro init h
    rw [List.foldl_cons]
    exact ih (fun x hx => hl x (List.mem_cons_of_mem b hx)) _
      (update_crc_lt init b h (hl b (List.mem_cons_self b rest)))

theorem calculate_crc_lt (buffer : List Nat) (h : ∀ b ∈ buffer, b < 4294967296) :
    calculate_crc buffer < 4294967296 := by
  unfold calculate_crc
  have h1 := crc_foldl_lt buffer h 4294967295 (by norm_num)
  have := Nat.xor_lt_two_pow (show buffer.foldl update_crc 4294967295 < 2 ^ 32 by omega)
    (show 4294967295 < 2 ^ 32 by norm_num)
  omega

theorem validType_bytes_lt (ty : List Nat) (h : validChunkTypeB ty = true) :
    ∀ b ∈ ty, b < 4294967296 := by
  intro b hb
  have := List.all_eq_true.mp h b hb
  simp only [Bool.or_eq_true, Bool.and_eq_true, decide_eq_true_eq] at this
  omega

theorem chunk_load_save (c : RawGenericChunk) (h : wfChunk c) :
    RawGenericChunk.load c.saveBytes = .ok c := by
  obtain ⟨hdl, hlt, hty, hvt, hdb, hcrc⟩ := h
  have hdl4 : c.data_length.length = 4 := by rw [hdl]; rfl
  have hcrc4 : c.crc.length = 4 := by rw [hcrc]; rfl
  have hsb : c.saveBytes = c.data_length ++ (c.chunk_type ++ (c.data ++ c.crc)) := by
    simp [RawGenericChunk.saveBytes]
  have hlen : c.saveBytes.length = c.data.length + 12 := by
    rw [hsb]; simp [hdl4, hty, hcrc4]; omega
  have e1 : c.saveBytes.take 4 = c.data_length := by
    rw [hsb]; exact List.take_left' hdl4
  have e2 : (c.saveBytes.drop 4).take 4 = c.chunk_type := by
    rw [hsb, List.drop_left' hdl4]; exact List.take_left' hty
  have e3 : (c.saveBytes.drop 8).take (c.saveBytes.length - 12) = c.data := by
    have hsb2 : c.saveBytes = (c.data_length ++ c.chunk_type) ++ (c.data ++ c.crc) := by
      rw [hsb]; simp
    rw [hlen, hsb2, List.drop_left' (by simp [hdl4, hty]),
      Nat.add_sub_cancel]
    exact List.take_left' rfl
  have e4 : c.saveBytes.drop (c.saveBytes.length - 4) = c.crc := by
    have hsb3 : c.saveBytes = ((c.data_length ++ c.chunk_type) ++ c.data) ++ c.crc := by
      rw [hsb]; simp
    rw [hlen, hsb3]
    exact List.drop_left' (by simp [hdl4, hty]; omega)
  have ecrc : u32_from_be4 c.crc = calculate_crc (c.chunk_type ++ c.data) := by
    rw [hcrc]
    apply u32_roundtrip
    apply calculate_crc_lt
    intro b hb
    rcases List.mem_append.mp hb with h1 | h1
    · exact validType_bytes_lt c.chunk_type hvt b h1
    · have := hdb b h1; omega
  unfold RawGenericChunk.load
  rw [if_neg (by omega : ¬ c.saveBytes.length < 12)]
  simp only [e1, e2, e3, e4, hvt, ecrc]
  simp

/-- C5 (amended). For every chunk byte sequence of at least twelve bytes
with a lawful type field, when the stated trailing CRC u32 differs from
the CRC-32 computed over chunk_type concatenated with data, loading the
chunk fails with the Generic error carrying the CRC message (the
dedicated CrcMismatch variant of error.rs is declared but never
constructed by the loader); conversely, when the stated CRC matches, no
CRC error is raised and the chunk is returned. -/
theorem c5_crc_check (bytes : List Nat) (h12 : 12 ≤ bytes.length)
    (htype : validChunkTypeB ((bytes.drop 4).take 4) = true) :
    (u32_from_be4 (bytes.drop (bytes.length - 4)) ≠
        calculate_crc ((bytes.drop 4).take 4 ++ (bytes.drop 8).take (bytes.length - 12)) →
      RawGenericChunk.load bytes = .error (.Generic msgChunkBadCrc) ∧
        LResult.failIsCrcMismatch (.fail (.Generic msgChunkBadCrc) : LResult RawGenericChunk)
          = false) ∧
    (u32_from_be4 (bytes.drop (bytes.length - 4)) =
        calculate_crc ((bytes.drop 4).take 4 ++ (bytes.drop 8).take (bytes.length - 12)) →
      RawGenericChunk.load bytes =
        .ok ⟨bytes.take 4, (bytes.drop 4).take 4,
          (bytes.drop 8).take (bytes.length - 12), bytes.drop (bytes.length - 4)⟩) := by
  unfold RawGenericChunk.load
  rw [if_neg (by omega : ¬ bytes.length < 12)]
  rw [if_neg (show ¬ ¬ validChunkTypeB ((bytes.drop 4).take 4) = true by simp [htype])]
  constructor
  · intro hne
    rw [if_pos hne]
    exact ⟨rfl, rfl⟩
  · intro heq
    rw [if_neg (by simp [heq])]

set_option maxRecDepth 100000 in
/-- Witness for c5_crc_check: the twelve-byte chunk of type ABCD with a
matching CRC loads successfully. -/
theorem c5_crc_check_witness :
    RawGenericChunk.load exC5good =
      .ok ⟨exC5good.take 4, (exC5good.drop 4).take 4,
        (exC5good.drop 8).take (exC5good.length - 12),
        exC5good.drop (exC5good.length - 4)⟩ :=
  (c5_crc_check exC5good (by decide) (by decide)).2 (by decide)

theorem chunkCheckedSave_ok (c : RawGenericChunk) (o : List Nat)
    (h : chunkCheckedSave c = .ok o) : o = c.saveBytes := by
  unfold chunkCheckedSave at h
  split at h
  · exact absurd h (by simp)
  · exact (Except.ok.inj h).symm

theorem saveBytes_length_of_fields (c : RawGenericChunk) (hf : chunkFieldsOk c) :
    c.saveBytes.length = c.data.length + 12 := by
  obtain ⟨h1, h2, h3⟩ := hf
  simp [RawGenericChunk.saveBytes, h1, h2, h3]
  omega

theorem chunksBytes_cons (c : RawGenericChunk) (cs : List RawGenericChunk) :
    chunksBytes (c :: cs) = c.saveBytes ++ chunksBytes cs := by
  simp [chunksBytes]

theorem saveChunkList_ok (cs : List RawGenericChunk) :
    ∀ o : List Nat, saveChunkList cs = .ok o → o = chunksBytes cs := by
  induction cs with
  | nil =>
    intro o h
    simpa [saveChunkList, chunksBytes] using h.symm
  | cons c rest ih =>
    intro o h
    unfold saveChunkList at h
    cases hc : chunkCheckedSave c with
    | error e => rw [hc] at h; exact absurd h (by simp)
    | ok out =>
      rw [hc] at h
      cases hr : saveChunkList rest with
      | error e => rw [hr] at h; exact absurd h (by simp)
      | ok outs =>
        rw [hr] at h
        rw [chunksBytes_cons, ← chunkCheckedSave_ok c out hc, ← ih outs hr]
        exact (Except.ok.inj h).symm

theorem chunksBytes_length (cs : List RawGenericChunk)
    (hf : ∀ c ∈ cs, chunkFieldsOk c) :
    (chunksBytes cs).length = (cs.map (fun c => c.data.length + 12)).sum := by
  induction cs with
  | nil => simp [chunksBytes]
  | cons c rest ih =>
    rw [chunksBytes_cons]
    simp only [List.length_append, List.map_cons, List.sum_cons]
    rw [saveBytes_length_of_fields c (hf c (List.mem_cons_self c rest)),
      ih (fun x hx => hf x (List.mem_cons_of_mem c hx))]

theorem ztxtSave_ok (z : RawZtxtChunk) (o : List Nat) (h : z.save = .ok o) :
    o = z.data_length ++ z.chunk_type ++ z.data.saveBytes ++ z.crc := by
  unfold RawZtxtChunk.save at h
  split at h
  · exact absurd h (by simp)
  · exact (Except.ok.inj h).symm

theorem rawDmiSave_ok_shape (dmi : RawDmi) (inc : Bool) (out : List Nat)
    (h : RawDmi.save dmi inc = .ok out) :
    out = dmi.header ++ dmi.chunk_ihdr.saveBytes ++
      ztxtOutBytes inc dmi.chunk_ztxt ++ plteOutBytes dmi.chunk_plte ++
      othersOutBytes dmi.other_chunks ++
      chunksBytes dmi.chunks_idat ++ dmi.chunk_iend.saveBytes := by
  unfold RawDmi.save at h
  split at h
  · exact absurd h (by simp)
  split at h
  · exact absurd h (by simp)
  rename_i ihdrOut hci
  split at h
  · exact absurd h (by simp)
  rename_i ztxtOut hz
  split at h
  · exact absurd h (by simp)
  rename_i plteOut hp
  split at h
  · exact absurd h (by simp)
  rename_i othersOut hoth
  split at h
  · exact absurd h (by simp)
  rename_i idatOut hid
  split at h
  · exact absurd h (by simp)
  have e1 : ihdrOut = dmi.chunk_ihdr.saveBytes := chunkCheckedSave_ok _ _ hci
  have e2 : ztxtOut = ztxtOutBytes inc dmi.chunk_ztxt := by
    cases inc with
    | false => simpa [ztxtOutBytes] using (Except.ok.inj hz).symm
    | true =>
      cases hzz : dmi.chunk_ztxt with
      | none => rw [hzz] at hz; simpa [ztxtOutBytes] using (Except.ok.inj hz).symm
      | some z =>
        rw [hzz] at hz
        simp only [if_true] at hz
        rw [show ztxtOutBytes true (some z) =
          z.data_length ++ z.chunk_type ++ z.data.saveBytes ++ z.crc from rfl]
        exact ztxtSave_ok z ztxtOut hz
  have e3 : plteOut = plteOutBytes dmi.chunk_plte := by
    cases hpp : dmi.chunk_plte with
    | none => rw [hpp] at hp; simpa [plteOutBytes] using (Except.ok.inj hp).symm
    | some p =>
      rw [hpp] at hp
      rw [show plteOutBytes (some p) = p.saveBytes from rfl]
      exact chunkCheckedSave_ok p plteOut hp
  have e4 : othersOut = othersOutBytes dmi.other_chunks := by
    cases hoo : dmi.other_chunks with
    | none => rw [hoo] at hoth; simpa [othersOutBytes] using (Except.ok.inj hoth).symm
    | some cs =>
      rw [hoo] at hoth
      rw [show othersOutBytes (some cs) = chunksBytes cs from rfl]
      exact saveChunkList_ok cs othersOut hoth
  have e5 : idatOut = chunksBytes dmi.chunks_idat := saveChunkList_ok _ _ hid
  rw [← e1, ← e2, ← e3, ← e4, ← e5]
  exact (Except.ok.inj h).symm

theorem foldl_add_sum (cs : List RawGenericChunk) :
    ∀ init : Nat, cs.foldl (fun a c => a + c.data.length + 12) init =
      init + (cs.map (fun c => c.data.length + 12)).sum := by
  induction cs with
  | nil => intro init; simp
  | cons c rest ih =>
    intro init
    rw [List.foldl_cons, ih]
    simp
    omega

theorem ztxtOutBytes_length (inc : Bool) (oz : Option RawZtxtChunk)
    (hf : ∀ z ∈ oz, z.data_length.length = 4 ∧ z.chunk_type.length = 4 ∧ z.crc.length = 4) :
    (ztxtOutBytes inc oz).length = ztxtBudget inc oz := by
  cases inc with
  | false => simp [ztxtOutBytes, ztxtBudget]
  | true =>
    cases oz with
    | none => simp [ztxtOutBytes, ztxtBudget]
    | some z =>
      obtain ⟨h1, h2, h3⟩ := hf z rfl
      simp [ztxtOutBytes, ztxtBudget, RawZtxtData.saveBytes, h1, h2, h3]
      omega

theorem plteOutBytes_length (op : Option RawGenericChunk)
    (hf : ∀ p ∈ op, chunkFieldsOk p) :
    (plteOutBytes op).length = plteBudget op := by
  cases op with
  | none => simp [plteOutBytes, plteBudget]
  | some p =>
    simp only [plteOutBytes, plteBudget]
    rw [saveBytes_length_of_fields p (hf p rfl)]

theorem othersOutBytes_length (ocs : Option (List RawGenericChunk))
    (hf : ∀ cs ∈ ocs, ∀ c ∈ cs, chunkFieldsOk c) :
    (othersOutBytes ocs).length = othersBudget ocs := by
  cases ocs with
  | none => simp [othersOutBytes, othersBudget]
  | some cs =>
    simp only [othersOutBytes, othersBudget]
    exact chunksBytes_length cs (hf cs rfl)

theorem obs_formula (dmi : RawDmi) (inc : Bool) :
    RawDmi.output_buffer_size dmi inc =
      8 + 25 + 12 + ztxtBudget inc dmi.chunk_ztxt + plteBudget dmi.chunk_plte +
        othersBudget dmi.other_chunks + idatBudget dmi.chunks_idat := by
  unfold RawDmi.output_buffer_size
  cases inc <;> cases hz : dmi.chunk_ztxt <;> cases hp : dmi.chunk_plte <;>
    cases ho : dmi.other_chunks <;>
    simp [ztxtBudget, plteBudget, othersBudget, idatBudget, foldl_add_sum] <;>
    omega

/-- C7 (amended). For every RawDmi value whose IHDR chunk carries the
thirteen data bytes the PNG format prescribes, the number of bytes
RawDmi::save writes on success is at most output_buffer_size(include_ztxt),
and output_buffer_size equals 8 + 25 + 12 plus chunk.data.len + 12 for
each included PLTE/other/IDAT chunk, plus keyword.len +
compressed_text.len + 14 for the zTXt chunk when included and present.
(Without the thirteen-byte proviso the bound fails: see the
counterexample, whose IHDR holds fourteen data bytes.) -/
theorem c7_buffer_size_bound (dmi : RawDmi) (inc : Bool) (out : List Nat)
    (hfields : rawDmiFieldsOk dmi)
    (hihdr : dmi.chunk_ihdr.data.length = 13)
    (hok : RawDmi.save dmi inc = .ok out) :
    out.length ≤ RawDmi.output_buffer_size dmi inc ∧
    RawDmi.output_buffer_size dmi inc =
      8 + 25 + 12 + ztxtBudget inc dmi.chunk_ztxt + plteBudget dmi.chunk_plte +
        othersBudget dmi.other_chunks + idatBudget dmi.chunks_idat := by
  obtain ⟨hh, hfi, hfz, hfp, hfo, hfid, hie1, hie2, hie3⟩ := hfields
  refine ⟨?_, obs_formula dmi inc⟩
  rw [rawDmiSave_ok_shape dmi inc out hok, obs_formula dmi inc]
  simp only [List.length_append]
  rw [hh, saveBytes_length_of_fields dmi.chunk_ihdr hfi, hihdr,
    ztxtOutBytes_length inc dmi.chunk_ztxt hfz,
    plteOutBytes_length dmi.chunk_plte hfp,
    othersOutBytes_length dmi.other_chunks hfo,
    chunksBytes_length dmi.chunks_idat hfid]
  have hiend : dmi.chunk_iend.saveBytes.length = 12 := by
    simp [RawIendChunk.saveBytes, hie1, hie2, hie3]
  rw [hiend]
  unfold idatBudget
  omega

set_option maxRecDepth 100000 in
/-- Witness for c7_buffer_size_bound: a container with a thirteen-byte
IHDR, no zTXt, no PLTE, no other chunks and one empty IDAT saves 57
bytes, within its reported budget of 57. -/
theorem c7_buffer_size_bound_witness :
    RawDmi.save exC7wit true = .ok (pngHeaderBytes ++ ihdrChunk0.saveBytes ++ [] ++ []
      ++ [] ++ (idatChunk0.saveBytes ++ []) ++ iendBytes0) ∧
    (pngHeaderBytes ++ ihdrChunk0.saveBytes ++ [] ++ [] ++ [] ++
      (idatChunk0.saveBytes ++ []) ++ iendBytes0).length ≤
      RawDmi.output_buffer_size exC7wit true :=
  ⟨by decide,
    (c7_buffer_size_bound exC7wit true _ (by decide) (by decide) (by decide)).1⟩

theorem valid_dir_ordinal (dirs dir : Nat) (h : dirValidForCount dirs dir) :
    dir_to_dmi_index dir = some (dmiOrdinal dir) ∧ dmiOrdinal dir ≤ 7 := by
  have hmem : dir = 1 ∨ dir = 2 ∨ dir = 4 ∨ dir = 8 ∨ dir = 5 ∨ dir = 9 ∨
      dir = 6 ∨ dir = 10 := by
    rcases h with ⟨_, h⟩ | ⟨_, h⟩ | ⟨_, h⟩
    · simp only [dirSOUTH] at h; tauto
    · simp only [CARDINAL_DIRS, dirNORTH, dirSOUTH, dirEAST, dirWEST,
        List.mem_cons, List.mem_singleton] at h
      tauto
    · simp only [ALL_DIRS, dirNORTH, dirSOUTH, dirEAST, dirWEST, dirNORTHEAST,
        dirNORTHWEST, dirSOUTHEAST, dirSOUTHWEST, List.mem_cons,
        List.mem_singleton] at h
      tauto
  rcases hmem with rfl | rfl | rfl | rfl | rfl | rfl | rfl | rfl <;> exact ⟨rfl, by decide⟩

theorem valid_dir_passes (dirs dir : Nat) (h : dirValidForCount dirs dir) :
    ¬ ((dirs = 1 ∧ dir ≠ dirSOUTH) ∨ (dirs = 4 ∧ dir ∉ CARDINAL_DIRS) ∨
       (dirs = 8 ∧ dir ∉ ALL_DIRS)) := by
  rcases h with ⟨hd, hv⟩ | ⟨hd, hv⟩ | ⟨hd, hv⟩ <;> subst hd <;>
    rintro (⟨he, hn⟩ | ⟨he, hn⟩ | ⟨he, hn⟩) <;> first | omega | exact hn hv

theorem invalid_dir_fails (dirs dir : Nat) (hd : dirs = 1 ∨ dirs = 4 ∨ dirs = 8)
    (hnv : ¬ dirValidForCount dirs dir) :
    (dirs = 1 ∧ dir ≠ dirSOUTH) ∨ (dirs = 4 ∧ dir ∉ CARDINAL_DIRS) ∨
      (dirs = 8 ∧ dir ∉ ALL_DIRS) := by
  rcases hd with rfl | rfl | rfl
  · exact Or.inl ⟨rfl, fun he => hnv (Or.inl ⟨rfl, he⟩)⟩
  · exact Or.inr (Or.inl ⟨rfl, fun he => hnv (Or.inr (Or.inl ⟨rfl, he⟩))⟩)
  · exact Or.inr (Or.inr ⟨rfl, fun he => hnv (Or.inr (Or.inr ⟨rfl, he⟩))⟩)

theorem imageIdxUsize_eq (ord frame : Nat) (hord : ord ≤ 7)
    (hf : frame < 4294967296) (h1 : 1 ≤ frame) :
    imageIdxUsize ord frame = (ord + 1) * frame - 1 := by
  unfold imageIdxUsize
  have hp : (ord + 1) * frame ≤ 8 * frame := Nat.mul_le_mul_right frame (by omega)
  have hp1 : 1 ≤ (ord + 1) * frame := by
    have := Nat.mul_le_mul (show 1 ≤ ord + 1 by omega) h1
    simpa using this
  omega

/-- C8. For every IconState with a dirs count of 1, 4 or 8, a u32 frame
and a usize-sized image vector, get_image(dir, frame) validates that
frame ≤ frames (a larger frame is an IconState error), validates that
dir belongs to the valid direction set for the dirs count (SOUTH only
for dirs = 1, the four cardinals for dirs = 4, all eight for dirs = 8;
any other dir is an IconState error), and for a valid in-bounds request
returns the tile at index (dir_ordinal + 1) * frame - 1 of images, or an
IconState error when that lookup is out of range — including frame = 0,
whose wrapped index always misses. -/
theorem c8_get_image_spec {α : Type} (s : IconState α) (dir frame : Nat)
    (hdirs : s.dirs = 1 ∨ s.dirs = 4 ∨ s.dirs = 8)
    (hframe : frame < 4294967296)
    (hlen : s.images.length < 18446744073709551616) :
    (s.frames < frame → s.get_image dir frame = .error (.IconStateErr msgFrameTooBig)) ∧
    (frame ≤ s.frames → ¬ dirValidForCount s.dirs dir →
      s.get_image dir frame = .error (.IconStateErr msgBadDir)) ∧
    (frame ≤ s.frames → dirValidForCount s.dirs dir → 1 ≤ frame →
      s.get_image dir frame = tileLookup s.images ((dmiOrdinal dir + 1) * frame - 1)) ∧
    (frame = 0 → dirValidForCount s.dirs dir →
      s.get_image dir frame = .error (.IconStateErr msgOobIndex)) := by
  refine ⟨?_, ?_, ?_, ?_⟩
  · intro hlt
    unfold IconState.get_image
    rw [if_pos hlt]
  · intro hle hnv
    unfold IconState.get_image
    rw [if_neg (not_lt.mpr hle), if_pos (invalid_dir_fails s.dirs dir hdirs hnv)]
  · intro hle hv h1
    obtain ⟨hidx, hord⟩ := valid_dir_ordinal s.dirs dir hv
    unfold IconState.get_image
    rw [if_neg (not_lt.mpr hle), if_neg (valid_dir_passes s.dirs dir hv), hidx]
    simp only [imageIdxUsize_eq (dmiOrdinal dir) frame hord hframe h1]
    rfl
  · intro h0 hv
    subst h0
    obtain ⟨hidx, hord⟩ := valid_dir_ordinal s.dirs dir hv
    unfold IconState.get_image
    rw [if_neg (by omega : ¬ s.frames < 0), if_neg (valid_dir_passes s.dirs dir hv), hidx]
    have : imageIdxUsize (dmiOrdinal dir) 0 = 18446744073709551615 := by
      unfold imageIdxUsize; simp
    simp only [this]
    have hnone : s.images.get? 18446744073709551615 = none := by
      rw [List.get?_eq_none]
      omega
    rw [hnone]

/-- Witness for c8_get_image_spec: a four-dir two-frame state with eight
tiles; the EAST tile of frame two sits at index (2 + 1) * 2 - 1 = 5 and
holds the value 6. -/
theorem c8_get_image_spec_witness :
    IconState.get_image exState8 dirEAST 2 =
      tileLookup exState8.images ((dmiOrdinal dirEAST + 1) * 2 - 1) ∧
    tileLookup exState8.images ((dmiOrdinal dirEAST + 1) * 2 - 1) = .ok 6 :=
  ⟨(c8_get_image_spec exState8 dirEAST 2 (by decide) (by decide)
      (by decide)).2.2.1 (by decide) (by decide) (by decide),
    by decide⟩

theorem isPrefixOf_cons_eq (s0 c : Char) (srest rest : List Char) :
    (s0 :: srest).isPrefixOf (c :: rest) = ((s0 == c) && srest.isPrefixOf rest) := rfl

theorem isPrefixOf_self_append (l y : List Char) : l.isPrefixOf (l ++ y) = true := by
  induction l with
  | nil => simp [List.isPrefixOf]
  | cons a as ih => simp [List.cons_append, isPrefixOf_cons_eq, ih]

theorem splitGo_fuel_irrel (s0 : Char) (srest : List Char) :
    ∀ f1 f2 t, t.length ≤ f1 → t.length ≤ f2 →
      splitGo s0 srest f1 t = splitGo s0 srest f2 t := by
  intro f1
  induction f1 with
  | zero =>
    intro f2 t h1 h2
    have ht : t = [] := List.length_eq_zero.mp (by omega)
    subst ht
    cases f2 <;> rfl
  | succ f1 ih =>
    intro f2 t h1 h2
    cases t with
    | nil => cases f2 <;> rfl
    | cons c rest =>
      cases f2 with
      | zero => simp at h2
      | succ f2 =>
        simp only [splitGo]
        by_cases hp : (s0 :: srest).isPrefixOf (c :: rest)
        · rw [if_pos hp, if_pos hp,
            ih f2 (rest.drop srest.length) (by simp [List.length_drop] at h1 ⊢; omega)
              (by simp [List.length_drop] at h2 ⊢; omega)]
        · rw [if_neg hp, if_neg hp,
            ih f2 rest (by simp at h1 ⊢; omega) (by simp at h2 ⊢; omega)]

theorem splitGo_no_sep (s0 : Char) (srest : List Char) :
    ∀ fuel t, t.length ≤ fuel → s0 ∉ t → splitGo s0 srest fuel t = [t] := by
  intro fuel
  induction fuel with
  | zero =>
    intro t h1 _
    have ht : t = [] := List.length_eq_zero.mp (by omega)
    subst ht; rfl
  | succ f ih =>
    intro t h1 h2
    cases t with
    | nil => rfl
    | cons c rest =>
      have hne : (s0 == c) = false :=
        beq_eq_false_iff_ne.mpr (fun he => h2 (he ▸ List.mem_cons_self c rest))
      simp only [splitGo, isPrefixOf_cons_eq, hne, Bool.false_and, Bool.false_eq_true,
        if_false]
      rw [ih rest (by simp at h1; omega) (fun hm => h2 (List.mem_cons_of_mem c hm))]

theorem splitGo_found (s0 : Char) (srest y : List Char) :
    ∀ fuel x, (x ++ (s0 :: srest) ++ y).length ≤ fuel → s0 ∉ x →
      splitGo s0 srest fuel (x ++ (s0 :: srest) ++ y) =
        x :: splitGo s0 srest y.length y := by
  intro fuel
  induction fuel with
  | zero => intro x h1 _; simp at h1
  | succ f ih =>
    intro x h1 hx
    cases x with
    | nil =>
      simp only [List.nil_append]
      show splitGo s0 srest (f + 1) (s0 :: (srest ++ y)) = [] :: splitGo s0 srest y.length y
      simp only [splitGo]
      rw [if_pos (show (s0 :: srest).isPrefixOf (s0 :: (srest ++ y)) = true from
        isPrefixOf_self_append (s0 :: srest) y)]
      rw [List.drop_left' rfl]
      rw [splitGo_fuel_irrel s0 srest f y.length y (by simp at h1; omega) le_rfl]
    | cons a x2 =>
      have hne : (s0 == a) = false :=
        beq_eq_false_iff_ne.mpr (fun he => hx (he ▸ List.mem_cons_self a x2))
      have hstep : (a :: x2) ++ (s0 :: srest) ++ y = a :: (x2 ++ (s0 :: srest) ++ y) := by
        simp
      rw [hstep]
      simp only [splitGo, isPrefixOf_cons_eq, hne, Bool.false_and, Bool.false_eq_true,
        if_false]
      rw [ih x2 (by rw [hstep] at h1; simp at h1 ⊢; omega)
        (fun hm => hx (List.mem_cons_of_mem a hm))]

theorem rustSplit_no_sep (s0 : Char) (srest t : List Char) (h : s0 ∉ t) :
    rustSplit (s0 :: srest) t = [t] := by
  unfold rustSplit
  exact splitGo_no_sep s0 srest t.length t le_rfl h

theorem rustSplit_found (s0 : Char) (srest x y : List Char) (hx : s0 ∉ x) :
    rustSplit (s0 :: srest) (x ++ (s0 :: srest) ++ y) =
      x :: rustSplit (s0 :: srest) y := by
  unfold rustSplit
  exact splitGo_found s0 srest y (x ++ (s0 :: srest) ++ y).length x le_rfl hx

theorem rustSplitTerminator_keyval (key val : List Char) (hkey : ' ' ∉ key)
    (hval : val ≠ []) (hv : rustSplit eqSep val = [val]) :
    rustSplitTerminator eqSep (key ++ eqSep ++ val) = [key, val] := by
  have hsep : eqSep = ' ' :: ['=', ' '] := rfl
  have h1 : rustSplit eqSep (key ++ eqSep ++ val) = key :: rustSplit eqSep val := by
    rw [hsep]
    exact rustSplit_found ' ' ['=', ' '] key val hkey
  cases val with
  | nil => exact absurd rfl hval
  | cons a as =>
    unfold rustSplitTerminator
    rw [h1, hv]
    rfl

theorem rustSplit_newline_flat (ls : List (List Char)) (h : ∀ l ∈ ls, '\n' ∉ l) :
    rustSplit ['\n'] ((ls.map (fun l => l ++ ['\n'])).flatten) = ls ++ [[]] := by
  induction ls with
  | nil => rfl
  | cons l rest ih =>
    have hstep : ((l :: rest).map (fun l => l ++ ['\n'])).flatten =
        l ++ ['\n'] ++ (rest.map (fun l => l ++ ['\n'])).flatten := by
      simp
    rw [hstep, rustSplit_found '\n' [] l _ (h l (List.mem_cons_self l rest)),
      ih (fun x hx => h x (List.mem_cons_of_mem l hx))]
    rfl

theorem rustLines_flat (ls : List (List Char))
    (h : ∀ l ∈ ls, '\n' ∉ l ∧ l.getLast? ≠ some '\r') :
    rustLines ((ls.map (fun l => l ++ ['\n'])).flatten) = ls := by
  unfold rustLines rustSplitTerminator
  rw [rustSplit_newline_flat ls (fun l hl => (h l hl).1), List.getLast?_concat]
  simp only [List.dropLast_concat]
  induction ls with
  | nil => rfl
  | cons l rest ih =>
    simp only [List.map_cons, List.cons.injEq]
    constructor
    · cases hgl : l.getLast? with
      | none => simp
      | some c =>
        have := (h l (List.mem_cons_self l rest)).2
        rw [hgl] at this
        have hc : ¬ c = '\r' := fun he => this (by rw [he])
        simp [hc]
    · exact ih (fun x hx => h x (List.mem_cons_of_mem l hx))

theorem natToTextGo_spec (fuel : Nat) :
    ∀ n, n < fuel →
      (natToTextGo fuel n).all Char.isDigit = true ∧
      digitsVal (natToTextGo fuel n) = n ∧
      natToTextGo fuel n ≠ [] := by
  induction fuel with
  | zero => intro n h; omega
  | succ f ih =>
    intro n h
    by_cases h10 : n < 10
    · rw [show natToTextGo (f + 1) n = if n < 10 then [Char.ofNat (48 + n)]
          else natToTextGo f (n / 10) ++ [Char.ofNat (48 + n % 10)] from rfl,
        if_pos h10]
      interval_cases n <;> refine ⟨by decide, by decide, by decide⟩
    · rw [show natToTextGo (f + 1) n = if n < 10 then [Char.ofNat (48 + n)]
          else natToTextGo f (n / 10) ++ [Char.ofNat (48 + n % 10)] from rfl,
        if_neg h10]
      obtain ⟨ha, hb, hc⟩ := ih (n / 10) (by omega)
      have hm : n % 10 < 10 := Nat.mod_lt n (by omega)
      have hdig : (Char.ofNat (48 + n % 10)).isDigit = true ∧
          charVal (Char.ofNat (48 + n % 10)) = n % 10 := by
        set m := n % 10 with hmm
        interval_cases m <;> exact ⟨by decide, by decide⟩
      refine ⟨?_, ?_, by simp⟩
      · rw [List.all_append, ha, Bool.true_and, List.all_cons, hdig.1]
        rfl
      · unfold digitsVal
        rw [List.foldl_append]
        unfold digitsVal at hb
        rw [hb]
        simp only [List.foldl_cons, List.foldl_nil, hdig.2]
        omega

theorem natToText_spec (n : Nat) :
    (natToText n).all Char.isDigit = true ∧ digitsVal (natToText n) = n ∧
      natToText n ≠ [] := natToTextGo_spec (n + 1) n (by omega)

theorem digit_no_specials (t : List Char) (hd : t.all Char.isDigit = true) :
    ' ' ∉ t ∧ '\n' ∉ t ∧ t.getLast? ≠ some '\r' ∧ t.head? ≠ some '+' := by
  have hall := List.all_eq_true.mp hd
  refine ⟨fun hm => ?_, fun hm => ?_, fun hg => ?_, fun hh => ?_⟩
  · exact absurd (hall _ hm) (by decide)
  · exact absurd (hall _ hm) (by decide)
  · have : '\r' ∈ t := by
      cases t with
      | nil => simp at hg
      | cons a as => exact List.mem_of_mem_getLast? hg
    exact absurd (hall _ this) (by decide)
  · have : '+' ∈ t := by
      cases t with
      | nil => simp at hh
      | cons a as =>
        have ha : a = '+' := by simpa using hh
        subst ha
        exact List.mem_cons_self _ _
    exact absurd (hall _ this) (by decide)

theorem rustParseNat_digits (limit : Nat) (t : List Char)
    (hd : t.all Char.isDigit = true) (hne : t ≠ []) (hlt : digitsVal t < limit) :
    rustParseNat limit t = .ok (digitsVal t) := by
  unfold rustParseNat
  rw [if_neg (digit_no_specials t hd).2.2.2]
  rw [if_neg hne]
  rw [if_neg (by rw [hd]; simp)]
  rw [if_neg (by omega)]

theorem rustParseU32_natToText (n : Nat) (h : n < 4294967296) :
    rustParseU32 (natToText n) = .ok n := by
  obtain ⟨hd, hv, hne⟩ := natToText_spec n
  unfold rustParseU32
  rw [rustParseNat_digits 4294967296 (natToText n) hd hne (by omega), hv]

/-- C3 (amended). After the BEGIN marker and the version line, Icon::load
requires the width line and then the height line, both present and in
that order — no peeking and no 32-defaults: when the third line is any
key/value line whose key is not the width key (in particular a height
line, or the opening of a state block), the parse fails. With both lines
present a zero width or height is rejected and otherwise the parse
proceeds with the given values. -/
theorem c3_header_requires_width_height (v ws hs : List Char) (w h : Nat)
    (l2 k x : List Char) (rest ls : List (List Char)) (mx : Nat)
    (hv : v ≠ []) (hv2 : rustSplit eqSep v = [v])
    (hwsne : ws ≠ []) (hws2 : rustSplit eqSep ws = [ws])
    (hhsne : hs ≠ []) (hhs2 : rustSplit eqSep hs = [hs])
    (hw : rustParseU32 ws = .ok w) (hh : rustParseU32 hs = .ok h)
    (hsplit : rustSplitTerminator eqSep l2 = [k, x]) (hk : k ≠ "\twidth".toList) :
    (Icon.parseMeta (beginDmiMarker :: ("version = ".toList ++ v)
        :: ("\twidth = ".toList ++ ws) :: ("\theight = ".toList ++ hs) :: rest) mx =
      parseMetaAfterHeader v w h mx rest) ∧
    (Icon.parseMeta (beginDmiMarker :: ("version = ".toList ++ v) :: l2 :: ls) mx =
      .fail (.Generic msgBadWidth)) := by
  have e1 : rustSplitTerminator eqSep ("version = ".toList ++ v) = ["version".toList, v] := by
    rw [show ("version = ".toList ++ v) = "version".toList ++ eqSep ++ v from rfl]
    exact rustSplitTerminator_keyval _ v (by decide) hv hv2
  have e2 : rustSplitTerminator eqSep ("\twidth = ".toList ++ ws) = ["\twidth".toList, ws] := by
    rw [show ("\twidth = ".toList ++ ws) = "\twidth".toList ++ eqSep ++ ws from rfl]
    exact rustSplitTerminator_keyval _ ws (by decide) hwsne hws2
  have e3 : rustSplitTerminator eqSep ("\theight = ".toList ++ hs) = ["\theight".toList, hs] := by
    rw [show ("\theight = ".toList ++ hs) = "\theight".toList ++ eqSep ++ hs from rfl]
    exact rustSplitTerminator_keyval _ hs (by decide) hhsne hhs2
  constructor
  · simp only [Icon.parseMeta, e1, e2, e3, hw, hh, List.length_cons, List.length_nil,
      List.getD_cons_zero, List.getD_cons_succ]
    rw [if_neg (by simp), if_neg (by simp), if_neg (by simp), if_neg (by simp)]
    rfl
  · simp only [Icon.parseMeta, e1, hsplit, List.length_cons, List.length_nil,
      List.getD_cons_zero, List.getD_cons_succ]
    rw [if_neg (by simp), if_neg (by simp), if_pos (Or.inr hk)]

/-- Witness for c3_header_requires_width_height at the concrete header
with version 4.0, width 32 and height 32, followed by the end marker;
the second conjunct rejects the header whose third line carries the
height key first. -/
theorem c3_header_requires_width_height_witness :
    (Icon.parseMeta (beginDmiMarker :: ("version = ".toList ++ "4.0".toList)
        :: ("\twidth = ".toList ++ "32".toList) :: ("\theight = ".toList ++ "32".toList)
        :: ["# END DMI".toList]) 1 =
      parseMetaAfterHeader "4.0".toList 32 32 1 ["# END DMI".toList]) ∧
    (Icon.parseMeta (beginDmiMarker :: ("version = ".toList ++ "4.0".toList)
        :: "\theight = 32".toList :: []) 1 = .fail (.Generic msgBadWidth)) :=
  c3_header_requires_width_height "4.0".toList "32".toList "32".toList 32 32
    "\theight = 32".toList "\theight".toList "32".toList ["# END DMI".toList] [] 1
    (by decide) (by decide) (by decide) (by decide) (by decide) (by decide)
    (by decide) (by decide) (by decide) (by decide)

theorem containsSeq_of_no_split (sep t : List Char) (h : rustSplit sep t = [t]) :
    containsSeq sep t = false := by
  unfold containsSeq
  rw [h]
  rfl

theorem statesLoop_single (name : List Char) (mx : Nat)
    (hq : rustSplit eqSep ('"' :: (name ++ ['"'])) = ['"' :: (name ++ ['"'])])
    (hend : rustSplit endDmiMarker ("state = \"".toList ++ (name ++ ['"'])) =
      ["state = \"".toList ++ (name ++ ['"'])])
    (hmx : 1 ≤ mx) :
    statesLoopGo 4 ["\tdirs = 1".toList, "\tframes = 1".toList, "# END DMI".toList]
      ("state = \"".toList ++ (name ++ ['"'])) 0 mx [] =
      .ok [⟨name, 1, 1, [], none, .Indefinitely, false, false, none, none⟩] := by
  have hsplit : rustSplitTerminator eqSep ("state = \"".toList ++ (name ++ ['"'])) =
      ["state".toList, '"' :: (name ++ ['"'])] := by
    rw [show ("state = \"".toList ++ (name ++ ['"'])) =
      "state".toList ++ eqSep ++ ('"' :: (name ++ ['"'])) from rfl]
    exact rustSplitTerminator_keyval _ _ (by decide) (by simp) hq
  have hattrs : parseAttrs ["\tdirs = 1".toList, "\tframes = 1".toList,
      "# END DMI".toList] AttrBag.init =
      .ok ({ AttrBag.init with dirs := some 1, frames := some 1 },
        "# END DMI".toList, []) := by decide
  have hlast : ('"' :: (name ++ ['"'])).getLast? = some '"' := by
    rw [show ('"' :: (name ++ ['"'])) = ('"' :: name) ++ ['"'] from by simp]
    exact List.getLast?_concat _
  have hname : (if ('"' :: (name ++ ['"'])).length = 2 then []
      else (('"' :: (name ++ ['"'])).drop 1).dropLast) = name := by
    by_cases hn : name = []
    · subst hn; rfl
    · rw [if_neg (by simp [hn])]
      simp only [List.drop_one, List.tail_cons]
      exact List.dropLast_concat
  have hfin : ∀ (i : Nat) (acc : List (IconState Unit)),
      statesLoopGo 3 [] ("# END DMI".toList) i mx acc = .ok acc := by
    intro i acc
    rw [show (3 : Nat) = 2 + 1 from rfl]
    unfold statesLoopGo
    rw [if_pos (show containsSeq endDmiMarker ("# END DMI".toList) = true by decide)]
  rw [show (4 : Nat) = 3 + 1 from rfl]
  unfold statesLoopGo
  rw [containsSeq_of_no_split _ _ hend]
  rw [if_neg (by simp)]
  simp only [hsplit, List.getD_cons_zero, List.getD_cons_succ, List.length_cons,
    List.length_nil]
  rw [if_neg (by simp)]
  rw [if_neg (by simp [hlast])]
  rw [if_neg (by simp)]
  simp only [hattrs, hname]
  rw [if_neg (show ¬ mx < (0 + 1 * 1 % 4294967296) % 4294967296 by norm_num; omega)]
  rw [hfin]
  simp [AttrBag.init]

theorem sigText_one_frame (name : List Char) :
    IconState.signatureText
        (⟨name, 1, 1, [()], none, .Indefinitely, false, false, none, none⟩ : IconState Unit) =
      .ok ("state = \"".toList ++ name ++ "\"\n\tdirs = 1\n\tframes = 1\n".toList) := by
  simp only [IconState.signatureText]
  norm_num
  rfl

theorem statesSig_one_frame (name : List Char) :
    statesSignature
        [(⟨name, 1, 1, [()], none, .Indefinitely, false, false, none, none⟩ : IconState Unit)] =
      .ok ("state = \"".toList ++ name ++ "\"\n\tdirs = 1\n\tframes = 1\n".toList) := by
  simp only [statesSignature, sigText_one_frame, List.append_nil]

theorem saveSig_one_state (name v : List Char) (w h : Nat) :
    Icon.saveSignature
        (⟨v, w, h, [⟨name, 1, 1, [()], none, .Indefinitely, false, false, none, none⟩]⟩
          : Icon Unit) =
      .ok (c4SigBytes name v w h) := by
  simp only [Icon.saveSignature, statesSig_one_frame, c4SigBytes, List.append_assoc]

theorem c4SigBytes_lines (name v : List Char) (w h : Nat)
    (hvne : v ≠ []) (hvn : '\n' ∉ v) (hvr : v.getLast? ≠ some '\r') (hnn : '\n' ∉ name) :
    rustLines (c4SigBytes name v w h) =
      ["# BEGIN DMI".toList, "version = ".toList ++ v,
       "\twidth = ".toList ++ natToText w, "\theight = ".toList ++ natToText h,
       "state = \"".toList ++ (name ++ ['"']),
       "\tdirs = 1".toList, "\tframes = 1".toList, "# END DMI".toList] := by
  have hflat : c4SigBytes name v w h =
      (["# BEGIN DMI".toList, "version = ".toList ++ v,
         "\twidth = ".toList ++ natToText w, "\theight = ".toList ++ natToText h,
         "state = \"".toList ++ (name ++ ['"']),
         "\tdirs = 1".toList, "\tframes = 1".toList,
         "# END DMI".toList].map (fun l => l ++ ['\n'])).flatten := by
    simp [c4SigBytes]
  rw [hflat]
  apply rustLines_flat
  intro l hl
  obtain ⟨hwd, _, hwne⟩ := natToText_spec w
  obtain ⟨hwsp, hwnl, hwcr, _⟩ := digit_no_specials _ hwd
  obtain ⟨hhd, _, hhne⟩ := natToText_spec h
  obtain ⟨hhsp, hhnl, hhcr, _⟩ := digit_no_specials _ hhd
  simp only [List.mem_cons, List.not_mem_nil, or_false] at hl
  rcases hl with rfl | rfl | rfl | rfl | rfl | rfl | rfl | rfl
  · exact ⟨by decide, by decide⟩
  · refine ⟨fun hm => ?_, ?_⟩
    · rw [List.mem_append] at hm
      rcases hm with hm | hm
      · exact absurd hm (by decide)
      · exact hvn hm
    · rw [List.getLast?_append_of_ne_nil _ hvne]
      exact hvr
  · refine ⟨fun hm => ?_, ?_⟩
    · rw [List.mem_append] at hm
      rcases hm with hm | hm
      · exact absurd hm (by decide)
      · exact hwnl hm
    · rw [List.getLast?_append_of_ne_nil _ hwne]
      exact hwcr
  · refine ⟨fun hm => ?_, ?_⟩
    · rw [List.mem_append] at hm
      rcases hm with hm | hm
      · exact absurd hm (by decide)
      · exact hhnl hm
    · rw [List.getLast?_append_of_ne_nil _ hhne]
      exact hhcr
  · refine ⟨fun hm => ?_, ?_⟩
    · rw [List.mem_append] at hm
      rcases hm with hm | hm
      · exact absurd hm (by decide)
      · rw [List.mem_append] at hm
        rcases hm with hm | hm
        · exact hnn hm
        · exact absurd hm (by decide)
    · rw [List.getLast?_append_of_ne_nil _ (by simp : name ++ ['"'] ≠ []),
        List.getLast?_concat]
      decide
  · exact ⟨by decide, by decide⟩
  · exact ⟨by decide, by decide⟩
  · exact ⟨by decide, by decide⟩

/-- C4 (amended). Icon::save writes state names into the manifest
verbatim — no escaping of backslashes or double-quotes — and Icon::load
reads back whatever stands between the outer double-quotes verbatim: for
a one-dir one-frame state whose name contains characters the spec would
escape (so the escaped form differs from the name) but no newline and no
sequence that disturbs the line discipline, save emits the manifest with
the raw name, loading that manifest returns the same raw name, and the
emitted manifest differs from the one the spec's escaping would
prescribe. -/
theorem c4_name_verbatim_roundtrip (name v : List Char) (w h mx : Nat)
    (hesc : specEscapeName name ≠ name)
    (hvne : v ≠ []) (hv2 : rustSplit eqSep v = [v])
    (hvn : '\n' ∉ v) (hvr : v.getLast? ≠ some '\r')
    (hnn : '\n' ∉ name)
    (hq : rustSplit eqSep ('"' :: (name ++ ['"'])) = ['"' :: (name ++ ['"'])])
    (hend : rustSplit endDmiMarker ("state = \"".toList ++ (name ++ ['"'])) =
      ["state = \"".toList ++ (name ++ ['"'])])
    (hw0 : w ≠ 0) (hwlt : w < 4294967296) (hh0 : h ≠ 0) (hhlt : h < 4294967296)
    (hmx : 1 ≤ mx) :
    Icon.saveSignature (⟨v, w, h, [⟨name, 1, 1, [()], none, .Indefinitely, false, false,
        none, none⟩]⟩ : Icon Unit) = .ok (c4SigBytes name v w h) ∧
    Icon.parseMeta (rustLines (c4SigBytes name v w h)) mx =
      .ok ⟨v, w, h, [⟨name, 1, 1, [], none, .Indefinitely, false, false, none, none⟩]⟩ ∧
    c4SigBytes name v w h ≠ c4SigBytes (specEscapeName name) v w h := by
  refine ⟨saveSig_one_state name v w h, ?_, ?_⟩
  · rw [c4SigBytes_lines name v w h hvne hvn hvr hnn]
    have e1 : rustSplitTerminator eqSep ("version = ".toList ++ v) =
        ["version".toList, v] := by
      rw [show ("version = ".toList ++ v) = "version".toList ++ eqSep ++ v from rfl]
      exact rustSplitTerminator_keyval _ v (by decide) hvne hv2
    have hwsplit : rustSplit eqSep (natToText w) = [natToText w] := by
      rw [show eqSep = ' ' :: ['=', ' '] from rfl]
      exact rustSplit_no_sep ' ' ['=', ' '] _ (digit_no_specials _ (natToText_spec w).1).1
    have e2 : rustSplitTerminator eqSep ("\twidth = ".toList ++ natToText w) =
        ["\twidth".toList, natToText w] := by
      rw [show ("\twidth = ".toList ++ natToText w) =
        "\twidth".toList ++ eqSep ++ natToText w from rfl]
      exact rustSplitTerminator_keyval _ _ (by decide) (natToText_spec w).2.2 hwsplit
    have hhsplit : rustSplit eqSep (natToText h) = [natToText h] := by
      rw [show eqSep = ' ' :: ['=', ' '] from rfl]
      exact rustSplit_no_sep ' ' ['=', ' '] _ (digit_no_specials _ (natToText_spec h).1).1
    have e3 : rustSplitTerminator eqSep ("\theight = ".toList ++ natToText h) =
        ["\theight".toList, natToText h] := by
      rw [show ("\theight = ".toList ++ natToText h) =
        "\theight".toList ++ eqSep ++ natToText h from rfl]
      exact rustSplitTerminator_keyval _ _ (by decide) (natToText_spec h).2.2 hhsplit
    simp only [Icon.parseMeta, e1, e2, e3, rustParseU32_natToText w hwlt,
      rustParseU32_natToText h hhlt, List.length_cons, List.length_nil,
      List.getD_cons_zero, List.getD_cons_succ]
    rw [if_neg (by decide), if_neg (by simp), if_neg (by simp), if_neg (by simp)]
    rw [if_neg (show ¬ (w = 0 ∨ h = 0) by tauto)]
    rw [statesLoop_single name mx hq hend hmx]
  · intro heq
    simp only [c4SigBytes, List.append_assoc, List.append_right_inj] at heq
    rw [List.append_left_inj] at heq
    exact hesc heq.symm

/-- Witness for c4_name_verbatim_roundtrip at the name a-backslash-b,
version 4.0, width and height 32: the saved manifest holds the raw name,
parsing it back returns the raw name, and the manifest differs from the
escaped one. -/
theorem c4_name_verbatim_roundtrip_witness :
    Icon.saveSignature (⟨"4.0".toList, 32, 32, [⟨nameC4, 1, 1, [()], none, .Indefinitely,
        false, false, none, none⟩]⟩ : Icon Unit) = .ok (c4SigBytes nameC4 "4.0".toList 32 32) ∧
    Icon.parseMeta (rustLines (c4SigBytes nameC4 "4.0".toList 32 32)) 1 =
      .ok ⟨"4.0".toList, 32, 32,
        [⟨nameC4, 1, 1, [], none, .Indefinitely, false, false, none, none⟩]⟩ ∧
    c4SigBytes nameC4 "4.0".toList 32 32 ≠
      c4SigBytes (specEscapeName nameC4) "4.0".toList 32 32 :=
  c4_name_verbatim_roundtrip nameC4 "4.0".toList 32 32 1 (by decide) (by decide) (by decide)
    (by decide) (by decide) (by decide) (by decide) (by decide) (by decide) (by decide)
    (by decide) (by decide) (by decide)

theorem ztxt_tail_shape (e : List Nat) (m : Nat) (hget : e.get? 1 = some m)
    (hhead : ∀ x, e.head? = some x → x = 0) :
    e = 0 :: m :: e.drop 2 := by
  cases e with
  | nil => simp [List.get?] at hget
  | cons a t =>
    cases t with
    | nil => simp [List.get?] at hget
    | cons b t' =>
      have ha : a = 0 := hhead a rfl
      have hb : b = m := by simpa [List.get?] using hget
      simp [ha, hb]

theorem ztxtData_load_save (d : List Nat) (zd : RawZtxtData)
    (h : RawZtxtData.load d = .ok zd) : zd.saveBytes = d := by
  simp only [RawZtxtData.load] at h
  cases hm : d.get? ((d.takeWhile (fun x => x != 0)).length + 1) with
  | none => rw [hm] at h; exact absurd h (by simp)
  | some m =>
    rw [hm] at h
    have hzd : zd = ⟨d.takeWhile (fun x => x != 0), 0, m,
        d.drop ((d.takeWhile (fun x => x != 0)).length + 2)⟩ := (Except.ok.inj h).symm
    subst hzd
    have hsplit : d.takeWhile (fun x => x != 0) ++ d.dropWhile (fun x => x != 0) = d :=
      List.takeWhile_append_dropWhile _ _
    have h4 : (d.takeWhile (fun x => x != 0) ++ d.dropWhile (fun x => x != 0)).get?
        ((d.takeWhile (fun x => x != 0)).length + 1) =
        (d.dropWhile (fun x => x != 0)).get? 1 := by
      rw [List.get?_eq_getElem?, List.get?_eq_getElem?,
        List.getElem?_append_right (Nat.le_add_right _ _), Nat.add_sub_cancel_left]
    have hget : (d.dropWhile (fun x => x != 0)).get? 1 = some m := by
      rw [← h4, hsplit]
      exact hm
    have hhead : ∀ x, (d.dropWhile (fun x => x != 0)).head? = some x → x = 0 := by
      intro x hx
      have := List.head?_dropWhile_not (fun x => x != 0) d
      rw [hx] at this
      simpa using this
    have h3 : (d.takeWhile (fun x => x != 0) ++ d.dropWhile (fun x => x != 0)).drop
        ((d.takeWhile (fun x => x != 0)).length + 2) =
        (d.dropWhile (fun x => x != 0)).drop 2 := List.drop_append 2
    have hdrop : d.drop ((d.takeWhile (fun x => x != 0)).length + 2) =
        (d.dropWhile (fun x => x != 0)).drop 2 := by
      rw [hsplit] at h3
      exact h3
    have hE := ztxt_tail_shape _ m hget hhead
    simp only [RawZtxtData.saveBytes, hdrop]
    conv_rhs => rw [← hsplit, hE]
    simp

theorem chunkCheckedSave_of_wf (c : RawGenericChunk) (hw : wfChunk c) :
    chunkCheckedSave c = .ok c.saveBytes := by
  obtain ⟨hdl, hlt, hty, hvt, hdb, hcrc⟩ := hw
  have hdl4 : c.data_length.length = 4 := by rw [hdl]; rfl
  have hcrc4 : c.crc.length = 4 := by rw [hcrc]; rfl
  have hsblen : c.saveBytes.length = c.data.length + 12 := by
    simp [RawGenericChunk.saveBytes, hdl4, hty, hcrc4]; omega
  have hfrom : u32_from_be4 c.data_length = c.data.length := by
    rw [hdl]; exact u32_roundtrip _ hlt
  unfold chunkCheckedSave
  rw [if_neg (by omega)]

theorem saveChunkList_of_wf (cs : List RawGenericChunk) (hw : ∀ c ∈ cs, wfChunk c) :
    saveChunkList cs = .ok (chunksBytes cs) := by
  induction cs with
  | nil => simp [saveChunkList, chunksBytes]
  | cons c rest ih =>
    unfold saveChunkList
    rw [chunkCheckedSave_of_wf c (hw c (List.mem_cons_self c rest)),
      ih (fun x hx => hw x (List.mem_cons_of_mem c hx)), chunksBytes_cons]

theorem ztxtChunk_save_of_wf (z : RawGenericChunk) (zd : RawZtxtData)
    (hw : wfChunk z) (hzd : RawZtxtData.load z.data = .ok zd) :
    RawZtxtChunk.save ⟨z.data_length, z.chunk_type, zd, z.crc⟩ = .ok z.saveBytes := by
  have hdsv : zd.saveBytes = z.data := ztxtData_load_save _ _ hzd
  obtain ⟨hdl, hlt, hty, hvt, hdb, hcrc⟩ := hw
  simp only [RawZtxtChunk.save, RawGenericChunk.saveBytes, hdsv, hdl,
    u32_roundtrip _ hlt, lt_self_iff_false, if_false]

theorem rawDmiSave_canonical (ihdr z : RawGenericChunk) (zd : RawZtxtData)
    (plte : Option RawGenericChunk) (others idats : List RawGenericChunk)
    (hwi : wfChunk ihdr) (hwz : wfChunk z) (hzd : RawZtxtData.load z.data = .ok zd)
    (hwp : ∀ p ∈ plte, wfChunk p) (hwo : ∀ c ∈ others, wfChunk c)
    (hwid : ∀ c ∈ idats, wfChunk c) :
    RawDmi.save ⟨pngHeaderBytes, ihdr, some ⟨z.data_length, z.chunk_type, zd, z.crc⟩, plte,
      (if others = [] then none else some others), idats, RawIendChunk.new⟩ true =
      .ok (canonicalDmiBytes ihdr z plte others idats) := by
  have hzc := ztxtChunk_save_of_wf z zd hwz hzd
  have hic := chunkCheckedSave_of_wf ihdr hwi
  have hidc := saveChunkList_of_wf idats hwid
  by_cases ho : others = []
  · cases plte with
    | none =>
      simp only [RawDmi.save, ho, if_true, hic, hzc, hidc]
      simp [canonicalDmiBytes, ho, chunksBytes, RawIendChunk.saveBytes, RawIendChunk.new,
        iendBytes0, pngHeaderBytes]
      decide
    | some p =>
      have hpc := chunkCheckedSave_of_wf p (hwp p rfl)
      simp only [RawDmi.save, ho, if_true, hic, hzc, hidc, hpc]
      simp [canonicalDmiBytes, ho, chunksBytes, RawIendChunk.saveBytes, RawIendChunk.new,
        iendBytes0, pngHeaderBytes]
      decide
  · have hoc := saveChunkList_of_wf others hwo
    cases plte with
    | none =>
      simp only [RawDmi.save, ho, if_false, hic, hzc, hidc, hoc]
      simp [canonicalDmiBytes, chunksBytes, RawIendChunk.saveBytes, RawIendChunk.new,
        iendBytes0, pngHeaderBytes]
      decide
    | some p =>
      have hpc := chunkCheckedSave_of_wf p (hwp p rfl)
      simp only [RawDmi.save, ho, if_false, hic, hzc, hidc, hoc, hpc]
      simp [canonicalDmiBytes, chunksBytes, RawIendChunk.saveBytes, RawIendChunk.new,
        iendBytes0, pngHeaderBytes]
      decide

/-- The one-step unfolding of the chunk walk at a successor fuel value. -/
theorem loadLoop_succ (fuel : Nat) (dmi_bytes : List Nat) (index : Nat)
    (ihdr : Option RawGenericChunk) (ztxt : Option RawZtxtChunk)
    (plte : Option RawGenericChunk) (idats others : List RawGenericChunk) :
    RawDmi.loadLoop (fuel + 1) dmi_bytes index ihdr ztxt plte idats others =
      (if dmi_bytes.length < index + 12 then .fail (.Generic msgNoIend)
      else
        let chunk_data_length := u32_from_be4 ((dmi_bytes.drop index).take 4)
        if dmi_bytes.length < index + 12 + chunk_data_length then .panicked
        else
          let chunk_bytes := (dmi_bytes.drop index).take (12 + chunk_data_length)
          match RawGenericChunk.load chunk_bytes with
          | .error e => .fail e
          | .ok raw_chunk =>
            if raw_chunk.chunk_type = ihdrTypeBytes then
              RawDmi.loadLoop fuel dmi_bytes (index + 12 + chunk_data_length)
                (some raw_chunk) ztxt plte idats others
            else if raw_chunk.chunk_type = ztxtTypeBytes then
              match RawZtxtChunk.tryFromGeneric raw_chunk with
              | .error e => .fail e
              | .ok z => RawDmi.loadLoop fuel dmi_bytes (index + 12 + chunk_data_length)
                  ihdr (some z) plte idats others
            else if raw_chunk.chunk_type = plteTypeBytes then
              RawDmi.loadLoop fuel dmi_bytes (index + 12 + chunk_data_length)
                ihdr ztxt (some raw_chunk) idats others
            else if raw_chunk.chunk_type = idatTypeBytes then
              RawDmi.loadLoop fuel dmi_bytes (index + 12 + chunk_data_length)
                ihdr ztxt plte (idats ++ [raw_chunk]) others
            else if raw_chunk.chunk_type = iendTypeBytes then
              match RawIendChunk.tryFromGeneric raw_chunk with
              | .error e => .fail e
              | .ok chunk_iend =>
                match ihdr with
                | none => .fail (.Generic msgNoIhdr)
                | some chunk_ihdr =>
                  if idats = [] then .fail (.Generic msgNoIdat)
                  else .ok ⟨pngHeaderBytes, chunk_ihdr, ztxt, plte,
                    (if others = [] then none else some others), idats, chunk_iend⟩
            else
              RawDmi.loadLoop fuel dmi_bytes (index + 12 + chunk_data_length)
                ihdr ztxt plte idats (others ++ [raw_chunk])) := rfl

/-- One iteration of the chunk walk over a buffer holding a well-formed
chunk image at the current index: the chunk decodes to its value and the
walk continues (or finishes, for IEND) according to the chunk type. -/
theorem loadLoop_step (fuel : Nat) (pre rest : List Nat) (c : RawGenericChunk)
    (hw : wfChunk c)
    (i : Option RawGenericChunk) (z : Option RawZtxtChunk) (p : Option RawGenericChunk)
    (ids os : List RawGenericChunk) :
    RawDmi.loadLoop (fuel + 1) (pre ++ (c.saveBytes ++ rest)) pre.length i z p ids os =
      (if c.chunk_type = ihdrTypeBytes then
        RawDmi.loadLoop fuel (pre ++ (c.saveBytes ++ rest))
          (pre.length + 12 + c.data.length) (some c) z p ids os
      else if c.chunk_type = ztxtTypeBytes then
        match RawZtxtChunk.tryFromGeneric c with
        | .error e => .fail e
        | .ok zc => RawDmi.loadLoop fuel (pre ++ (c.saveBytes ++ rest))
            (pre.length + 12 + c.data.length) i (some zc) p ids os
      else if c.chunk_type = plteTypeBytes then
        RawDmi.loadLoop fuel (pre ++ (c.saveBytes ++ rest))
          (pre.length + 12 + c.data.length) i z (some c) ids os
      else if c.chunk_type = idatTypeBytes then
        RawDmi.loadLoop fuel (pre ++ (c.saveBytes ++ rest))
          (pre.length + 12 + c.data.length) i z p (ids ++ [c]) os
      else if c.chunk_type = iendTypeBytes then
        match RawIendChunk.tryFromGeneric c with
        | .error e => .fail e
        | .ok ce =>
          match i with
          | none => .fail (.Generic msgNoIhdr)
          | some ci =>
            if ids = [] then .fail (.Generic msgNoIdat)
            else .ok ⟨pngHeaderBytes, ci, z, p, (if os = [] then none else some os), ids, ce⟩
      else
        RawDmi.loadLoop fuel (pre ++ (c.saveBytes ++ rest))
          (pre.length + 12 + c.data.length) i z p ids (os ++ [c])) := by
  have hw' := hw
  obtain ⟨hdl, hlt, hty, hvt, hdb, hcrc⟩ := hw
  have hdl4 : c.data_length.length = 4 := by rw [hdl]; rfl
  have hcrc4 : c.crc.length = 4 := by rw [hcrc]; rfl
  have hsblen : c.saveBytes.length = c.data.length + 12 := by
    simp [RawGenericChunk.saveBytes, hdl4, hty, hcrc4]
    omega
  have hBlen : (pre ++ (c.saveBytes ++ rest)).length =
      pre.length + (c.data.length + 12) + rest.length := by
    simp [hsblen]
    omega
  have hdrop : (pre ++ (c.saveBytes ++ rest)).drop pre.length = c.saveBytes ++ rest :=
    List.drop_left' rfl
  have hre : c.saveBytes ++ rest =
      c.data_length ++ (c.chunk_type ++ c.data ++ c.crc ++ rest) := by
    simp [RawGenericChunk.saveBytes]
  have htake4 : (c.saveBytes ++ rest).take 4 = c.data_length := by
    rw [hre]
    exact List.take_left' hdl4
  have hcdl : u32_from_be4 (((pre ++ (c.saveBytes ++ rest)).drop pre.length).take 4) =
      c.data.length := by
    rw [hdrop, htake4, hdl]
    exact u32_roundtrip _ hlt
  have htakeC : ((pre ++ (c.saveBytes ++ rest)).drop pre.length).take (12 + c.data.length) =
      c.saveBytes := by
    rw [hdrop]
    exact List.take_left' (by omega)
  rw [loadLoop_succ]
  rw [if_neg (show ¬ (pre ++ (c.saveBytes ++ rest)).length < pre.length + 12 by
    rw [hBlen]; omega)]
  simp only [hcdl]
  rw [if_neg (show ¬ (pre ++ (c.saveBytes ++ rest)).length <
    pre.length + 12 + c.data.length by rw [hBlen]; omega)]
  rw [htakeC, chunk_load_save c hw']

theorem loadLoop_step_ihdr (fuel : Nat) (pre rest : List Nat) (c : RawGenericChunk)
    (hw : wfChunk c) (hty : c.chunk_type = ihdrTypeBytes)
    (i : Option RawGenericChunk) (z : Option RawZtxtChunk) (p : Option RawGenericChunk)
    (ids os : List RawGenericChunk) :
    RawDmi.loadLoop (fuel + 1) (pre ++ (c.saveBytes ++ rest)) pre.length i z p ids os =
      RawDmi.loadLoop fuel (pre ++ (c.saveBytes ++ rest))
        (pre.length + 12 + c.data.length) (some c) z p ids os := by
  rw [loadLoop_step fuel pre rest c hw i z p ids os, if_pos hty]

theorem loadLoop_step_ztxt (fuel : Nat) (pre rest : List Nat) (c : RawGenericChunk)
    (zd : RawZtxtData) (hw : wfChunk c) (hty : c.chunk_type = ztxtTypeBytes)
    (hzd : RawZtxtData.load c.data = .ok zd)
    (i : Option RawGenericChunk) (z : Option RawZtxtChunk) (p : Option RawGenericChunk)
    (ids os : List RawGenericChunk) :
    RawDmi.loadLoop (fuel + 1) (pre ++ (c.saveBytes ++ rest)) pre.length i z p ids os =
      RawDmi.loadLoop fuel (pre ++ (c.saveBytes ++ rest))
        (pre.length + 12 + c.data.length) i
        (some ⟨c.data_length, c.chunk_type, zd, c.crc⟩) p ids os := by
  have htf : RawZtxtChunk.tryFromGeneric c =
      .ok ⟨c.data_length, c.chunk_type, zd, c.crc⟩ := by
    unfold RawZtxtChunk.tryFromGeneric
    rw [if_neg (by simp [hty]), hzd]
  rw [loadLoop_step fuel pre rest c hw i z p ids os,
    if_neg (by rw [hty]; decide), if_pos hty, htf]

theorem loadLoop_step_plte (fuel : Nat) (pre rest : List Nat) (c : RawGenericChunk)
    (hw : wfChunk c) (hty : c.chunk_type = plteTypeBytes)
    (i : Option RawGenericChunk) (z : Option RawZtxtChunk) (p : Option RawGenericChunk)
    (ids os : List RawGenericChunk) :
    RawDmi.loadLoop (fuel + 1) (pre ++ (c.saveBytes ++ rest)) pre.length i z p ids os =
      RawDmi.loadLoop fuel (pre ++ (c.saveBytes ++ rest))
        (pre.length + 12 + c.data.length) i z (some c) ids os := by
  rw [loadLoop_step fuel pre rest c hw i z p ids os,
    if_neg (by rw [hty]; decide), if_neg (by rw [hty]; decide), if_pos hty]

theorem loadLoop_step_idat (fuel : Nat) (pre rest : List Nat) (c : RawGenericChunk)
    (hw : wfChunk c) (hty : c.chunk_type = idatTypeBytes)
    (i : Option RawGenericChunk) (z : Option RawZtxtChunk) (p : Option RawGenericChunk)
    (ids os : List RawGenericChunk) :
    RawDmi.loadLoop (fuel + 1) (pre ++ (c.saveBytes ++ rest)) pre.length i z p ids os =
      RawDmi.loadLoop fuel (pre ++ (c.saveBytes ++ rest))
        (pre.length + 12 + c.data.length) i z p (ids ++ [c]) os := by
  rw [loadLoop_step fuel pre rest c hw i z p ids os,
    if_neg (by rw [hty]; decide), if_neg (by rw [hty]; decide),
    if_neg (by rw [hty]; decide), if_pos hty]

theorem loadLoop_step_other (fuel : Nat) (pre rest : List Nat) (c : RawGenericChunk)
    (hw : wfChunk c) (h1 : c.chunk_type ≠ ihdrTypeBytes) (h2 : c.chunk_type ≠ ztxtTypeBytes)
    (h3 : c.chunk_type ≠ plteTypeBytes) (h4 : c.chunk_type ≠ idatTypeBytes)
    (h5 : c.chunk_type ≠ iendTypeBytes)
    (i : Option RawGenericChunk) (z : Option RawZtxtChunk) (p : Option RawGenericChunk)
    (ids os : List RawGenericChunk) :
    RawDmi.loadLoop (fuel + 1) (pre ++ (c.saveBytes ++ rest)) pre.length i z p ids os =
      RawDmi.loadLoop fuel (pre ++ (c.saveBytes ++ rest))
        (pre.length + 12 + c.data.length) i z p ids (os ++ [c]) := by
  rw [loadLoop_step fuel pre rest c hw i z p ids os,
    if_neg h1, if_neg h2, if_neg h3, if_neg h4, if_neg h5]

theorem loadLoop_step_iend (fuel : Nat) (pre rest : List Nat) (c : RawGenericChunk)
    (hw : wfChunk c) (hty : c.chunk_type = iendTypeBytes)
    (hdata : c.data = []) (hcr : c.crc = iendCrcBytes)
    (ci : RawGenericChunk) (z : Option RawZtxtChunk) (p : Option RawGenericChunk)
    (ids os : List RawGenericChunk) (hids : ids ≠ []) :
    RawDmi.loadLoop (fuel + 1) (pre ++ (c.saveBytes ++ rest)) pre.length
        (some ci) z p ids os =
      .ok ⟨pngHeaderBytes, ci, z, p, (if os = [] then none else some os), ids,
        RawIendChunk.new⟩ := by
  have htf : RawIendChunk.tryFromGeneric c = .ok RawIendChunk.new := by
    unfold RawIendChunk.tryFromGeneric
    rw [if_neg (by simp [hdata]), if_neg (by simp [hty]), if_neg (by simp [hcr])]
  rw [loadLoop_step fuel pre rest c hw (some ci) z p ids os,
    if_neg (by rw [hty]; decide), if_neg (by rw [hty]; decide),
    if_neg (by rw [hty]; decide), if_neg (by rw [hty]; decide), if_pos hty, htf]
  exact if_neg hids

theorem wfChunk_fieldsOk (c : RawGenericChunk) (hw : wfChunk c) : chunkFieldsOk c := by
  obtain ⟨hdl, hlt, hty, hvt, hdb, hcrc⟩ := hw
  exact ⟨by rw [hdl]; rfl, hty, by rw [hcrc]; rfl⟩

theorem loadLoop_others_section :
    ∀ cs : List RawGenericChunk,
      (∀ c ∈ cs, wfChunk c ∧ c.chunk_type ≠ ihdrTypeBytes ∧ c.chunk_type ≠ ztxtTypeBytes ∧
        c.chunk_type ≠ plteTypeBytes ∧ c.chunk_type ≠ idatTypeBytes ∧
        c.chunk_type ≠ iendTypeBytes) →
      ∀ (fuel : Nat) (pre rest : List Nat) (i : Option RawGenericChunk)
        (z : Option RawZtxtChunk) (p : Option RawGenericChunk)
        (ids os : List RawGenericChunk),
        RawDmi.loadLoop (cs.length + fuel + 1) (pre ++ (chunksBytes cs ++ rest)) pre.length
            i z p ids os =
          RawDmi.loadLoop (fuel + 1) (pre ++ (chunksBytes cs ++ rest))
            (pre ++ chunksBytes cs).length i z p ids (os ++ cs) := by
  intro cs
  induction cs with
  | nil =>
    intro h fuel pre rest i z p ids os
    simp [chunksBytes]
  | cons c cs ih =>
    intro h fuel pre rest i z p ids os
    obtain ⟨hwc, h1, h2, h3, h4, h5⟩ := h c (List.mem_cons_self c cs)
    have ih' := ih (fun x hx => h x (List.mem_cons_of_mem c hx))
    have hbuf : pre ++ (chunksBytes (c :: cs) ++ rest) =
        pre ++ (c.saveBytes ++ (chunksBytes cs ++ rest)) := by
      rw [chunksBytes_cons, List.append_assoc]
    rw [hbuf]
    rw [show (c :: cs).length + fuel + 1 = cs.length + fuel + 1 + 1 from by simp; omega]
    rw [loadLoop_step_other (cs.length + fuel + 1) pre (chunksBytes cs ++ rest) c hwc
      h1 h2 h3 h4 h5 i z p ids os]
    have hsl := saveBytes_length_of_fields c (wfChunk_fieldsOk c hwc)
    have hidx : pre.length + 12 + c.data.length = (pre ++ c.saveBytes).length := by
      simp [hsl]
      omega
    rw [hidx]
    rw [show pre ++ (c.saveBytes ++ (chunksBytes cs ++ rest)) =
      (pre ++ c.saveBytes) ++ (chunksBytes cs ++ rest) from (List.append_assoc _ _ _).symm]
    rw [ih']
    have hidx2 : ((pre ++ c.saveBytes) ++ chunksBytes cs).length =
        (pre ++ chunksBytes (c :: cs)).length := by
      simp [chunksBytes_cons]
    have hos : (os ++ [c]) ++ cs = os ++ (c :: cs) := by simp
    rw [hidx2, hos]

theorem loadLoop_idats_section :
    ∀ cs : List RawGenericChunk,
      (∀ c ∈ cs, wfChunk c ∧ c.chunk_type = idatTypeBytes) →
      ∀ (fuel : Nat) (pre rest : List Nat) (i : Option RawGenericChunk)
        (z : Option RawZtxtChunk) (p : Option RawGenericChunk)
        (ids os : List RawGenericChunk),
        RawDmi.loadLoop (cs.length + fuel + 1) (pre ++ (chunksBytes cs ++ rest)) pre.length
            i z p ids os =
          RawDmi.loadLoop (fuel + 1) (pre ++ (chunksBytes cs ++ rest))
            (pre ++ chunksBytes cs).length i z p (ids ++ cs) os := by
  intro cs
  induction cs with
  | nil =>
    intro h fuel pre rest i z p ids os
    simp [chunksBytes]
  | cons c cs ih =>
    intro h fuel pre rest i z p ids os
    obtain ⟨hwc, hty⟩ := h c (List.mem_cons_self c cs)
    have ih' := ih (fun x hx => h x (List.mem_cons_of_mem c hx))
    have hbuf : pre ++ (chunksBytes (c :: cs) ++ rest) =
        pre ++ (c.saveBytes ++ (chunksBytes cs ++ rest)) := by
      rw [chunksBytes_cons, List.append_assoc]
    rw [hbuf]
    rw [show (c :: cs).length + fuel + 1 = cs.length + fuel + 1 + 1 from by simp; omega]
    rw [loadLoop_step_idat (cs.length + fuel + 1) pre (chunksBytes cs ++ rest) c hwc
      hty i z p ids os]
    have hsl := saveBytes_length_of_fields c (wfChunk_fieldsOk c hwc)
    have hidx : pre.length + 12 + c.data.length = (pre ++ c.saveBytes).length := by
      simp [hsl]
      omega
    rw [hidx]
    rw [show pre ++ (c.saveBytes ++ (chunksBytes cs ++ rest)) =
      (pre ++ c.saveBytes) ++ (chunksBytes cs ++ rest) from (List.append_assoc _ _ _).symm]
    rw [ih']
    have hidx2 : ((pre ++ c.saveBytes) ++ chunksBytes cs).length =
        (pre ++ chunksBytes (c :: cs)).length := by
      simp [chunksBytes_cons]
    have hids : (ids ++ [c]) ++ cs = ids ++ (c :: cs) := by simp
    rw [hidx2, hids]

theorem chunksBytes_len_ge (cs : List RawGenericChunk)
    (hf : ∀ c ∈ cs, chunkFieldsOk c) :
    cs.length ≤ (chunksBytes cs).length := by
  induction cs with
  | nil => simp [chunksBytes]
  | cons c r ih =>
    rw [chunksBytes_cons]
    simp only [List.length_append, List.length_cons]
    have h1 := saveBytes_length_of_fields c (hf c (List.mem_cons_self c r))
    have h2 := ih (fun x hx => hf x (List.mem_cons_of_mem c hx))
    omega

theorem loadLoop_plte_section (op : Option RawGenericChunk)
    (h : ∀ p ∈ op, wfChunk p ∧ p.chunk_type = plteTypeBytes) :
    ∀ (fuel : Nat) (pre rest : List Nat) (i : Option RawGenericChunk)
      (z : Option RawZtxtChunk) (ids os : List RawGenericChunk),
      RawDmi.loadLoop ((if op.isSome then 1 else 0) + fuel + 1)
          (pre ++ (plteOutBytes op ++ rest)) pre.length i z none ids os =
        RawDmi.loadLoop (fuel + 1) (pre ++ (plteOutBytes op ++ rest))
          (pre ++ plteOutBytes op).length i z op ids os := by
  cases op with
  | none =>
    intro fuel pre rest i z ids os
    simp [plteOutBytes]
  | some p =>
    intro fuel pre rest i z ids os
    obtain ⟨hwp, htyp⟩ := h p rfl
    rw [show (if (some p : Option RawGenericChunk).isSome then 1 else 0) = 1 from rfl]
    rw [show plteOutBytes (some p) = p.saveBytes from rfl]
    rw [show 1 + fuel + 1 = (fuel + 1) + 1 from by omega]
    rw [loadLoop_step_plte (fuel + 1) pre rest p hwp htyp i z none ids os]
    rw [show pre.length + 12 + p.data.length = (pre ++ p.saveBytes).length from by
      simp only [List.length_append, saveBytes_length_of_fields p (wfChunk_fieldsOk p hwp)]
      omega]

set_option maxRecDepth 100000 in
/-- RawDmi::load on the canonical chunk layout: every chunk decodes to
the value it was saved from and the container is reassembled. -/
theorem rawDmiLoad_canonical (ihdr z : RawGenericChunk) (zd : RawZtxtData)
    (op : Option RawGenericChunk) (others idats : List RawGenericChunk)
    (hwi : wfChunk ihdr) (htyi : ihdr.chunk_type = ihdrTypeBytes)
    (hwz : wfChunk z) (htyz : z.chunk_type = ztxtTypeBytes)
    (hzd : RawZtxtData.load z.data = .ok zd)
    (hwp : ∀ p ∈ op, wfChunk p ∧ p.chunk_type = plteTypeBytes)
    (hwo : ∀ c ∈ others, wfChunk c ∧ c.chunk_type ≠ ihdrTypeBytes ∧
      c.chunk_type ≠ ztxtTypeBytes ∧ c.chunk_type ≠ plteTypeBytes ∧
      c.chunk_type ≠ idatTypeBytes ∧ c.chunk_type ≠ iendTypeBytes)
    (hwid : ∀ c ∈ idats, wfChunk c ∧ c.chunk_type = idatTypeBytes)
    (hidne : idats ≠ [])
    (h72 : 72 ≤ (canonicalDmiBytes ihdr z op others idats).length) :
    RawDmi.load (canonicalDmiBytes ihdr z op others idats) =
      .ok ⟨pngHeaderBytes, ihdr, some ⟨z.data_length, z.chunk_type, zd, z.crc⟩, op,
        (if others = [] then none else some others), idats, RawIendChunk.new⟩ := by
  have hBr : canonicalDmiBytes ihdr z op others idats =
      pngHeaderBytes ++ (ihdr.saveBytes ++ (z.saveBytes ++ (plteOutBytes op ++
        (chunksBytes others ++ (chunksBytes idats ++ iendBytes0))))) := by
    cases op <;> simp [canonicalDmiBytes, plteOutBytes, List.append_assoc]
  have htake : (canonicalDmiBytes ihdr z op others idats).take 8 = pngHeaderBytes := by
    rw [hBr]
    exact List.take_left' rfl
  unfold RawDmi.load
  rw [if_neg (by omega), if_neg (by simp [htake]), hBr]
  have hIl := saveBytes_length_of_fields ihdr (wfChunk_fieldsOk ihdr hwi)
  have hZl := saveBytes_length_of_fields z (wfChunk_fieldsOk z hwz)
  have hPl : (if op.isSome then 1 else 0) ≤ (plteOutBytes op).length := by
    cases op with
    | none => simp [plteOutBytes]
    | some p =>
      rw [show (if (some p : Option RawGenericChunk).isSome then 1 else 0) = 1 from rfl,
        show plteOutBytes (some p) = p.saveBytes from rfl,
        saveBytes_length_of_fields p (wfChunk_fieldsOk p (hwp p rfl).1)]
      omega
  have hOl : others.length ≤ (chunksBytes others).length :=
    chunksBytes_len_ge others (fun c hc => wfChunk_fieldsOk c (hwo c hc).1)
  have hDl : idats.length ≤ (chunksBytes idats).length :=
    chunksBytes_len_ge idats (fun c hc => wfChunk_fieldsOk c (hwid c hc).1)
  have hBl : (pngHeaderBytes ++ (ihdr.saveBytes ++ (z.saveBytes ++ (plteOutBytes op ++
      (chunksBytes others ++ (chunksBytes idats ++ iendBytes0)))))).length =
      8 + (ihdr.saveBytes.length + (z.saveBytes.length + ((plteOutBytes op).length +
        ((chunksBytes others).length + ((chunksBytes idats).length + 12))))) := by
    simp [List.length_append, pngHeaderBytes, iendBytes0, iendTypeBytes, iendCrcBytes]
    omega
  obtain ⟨q, hq, hq1⟩ : ∃ q, (if op.isSome then 1 else 0) = q ∧ q ≤ 1 :=
    ⟨_, rfl, by cases op <;> simp⟩
  rw [hq] at hPl
  rw [show (pngHeaderBytes ++ (ihdr.saveBytes ++ (z.saveBytes ++ (plteOutBytes op ++
      (chunksBytes others ++ (chunksBytes idats ++ iendBytes0)))))).length + 1 =
    q + (others.length + (idats.length +
      ((pngHeaderBytes ++ (ihdr.saveBytes ++ (z.saveBytes ++ (plteOutBytes op ++
        (chunksBytes others ++ (chunksBytes idats ++ iendBytes0)))))).length + 1 -
        (q + others.length + idats.length + 3)))) + 1 + 1 + 1 from by omega]
  rw [show (8 : Nat) = pngHeaderBytes.length from rfl]
  rw [loadLoop_step_ihdr _ _ _ _ hwi htyi]
  rw [show pngHeaderBytes.length + 12 + ihdr.data.length =
    (pngHeaderBytes ++ ihdr.saveBytes).length from by
      simp only [List.length_append, hIl]
      omega]
  rw [show pngHeaderBytes ++ (ihdr.saveBytes ++ (z.saveBytes ++ (plteOutBytes op ++
      (chunksBytes others ++ (chunksBytes idats ++ iendBytes0))))) =
    (pngHeaderBytes ++ ihdr.saveBytes) ++ (z.saveBytes ++ (plteOutBytes op ++
      (chunksBytes others ++ (chunksBytes idats ++ iendBytes0))))
    from (List.append_assoc _ _ _).symm]
  rw [loadLoop_step_ztxt _ _ _ _ zd hwz htyz hzd]
  rw [show (pngHeaderBytes ++ ihdr.saveBytes).length + 12 + z.data.length =
    ((pngHeaderBytes ++ ihdr.saveBytes) ++ z.saveBytes).length from by
      simp only [List.length_append, hZl]
      omega]
  rw [show (pngHeaderBytes ++ ihdr.saveBytes) ++ (z.saveBytes ++ (plteOutBytes op ++
      (chunksBytes others ++ (chunksBytes idats ++ iendBytes0)))) =
    ((pngHeaderBytes ++ ihdr.saveBytes) ++ z.saveBytes) ++ (plteOutBytes op ++
      (chunksBytes others ++ (chunksBytes idats ++ iendBytes0)))
    from (List.append_assoc _ _ _).symm]
  rw [← hq]
  rw [loadLoop_plte_section op hwp]
  rw [show ((pngHeaderBytes ++ ihdr.saveBytes) ++ z.saveBytes) ++ (plteOutBytes op ++
      (chunksBytes others ++ (chunksBytes idats ++ iendBytes0))) =
    (((pngHeaderBytes ++ ihdr.saveBytes) ++ z.saveBytes) ++ plteOutBytes op) ++
      (chunksBytes others ++ (chunksBytes idats ++ iendBytes0))
    from (List.append_assoc _ _ _).symm]
  rw [loadLoop_others_section others hwo]
  rw [show (((pngHeaderBytes ++ ihdr.saveBytes) ++ z.saveBytes) ++ plteOutBytes op) ++
      (chunksBytes others ++ (chunksBytes idats ++ iendBytes0)) =
    ((((pngHeaderBytes ++ ihdr.saveBytes) ++ z.saveBytes) ++ plteOutBytes op) ++
      chunksBytes others) ++ (chunksBytes idats ++ iendBytes0)
    from (List.append_assoc _ _ _).symm]
  rw [loadLoop_idats_section idats hwid]
  rw [show ((((pngHeaderBytes ++ ihdr.saveBytes) ++ z.saveBytes) ++ plteOutBytes op) ++
      chunksBytes others) ++ (chunksBytes idats ++ iendBytes0) =
    (((((pngHeaderBytes ++ ihdr.saveBytes) ++ z.saveBytes) ++ plteOutBytes op) ++
      chunksBytes others) ++ chunksBytes idats) ++ iendBytes0
    from (List.append_assoc _ _ _).symm]
  rw [show iendBytes0 = (mkChunk iendTypeBytes []).saveBytes ++ [] from by decide]
  simp only [List.nil_append]
  rw [loadLoop_step_iend _ _ [] (mkChunk iendTypeBytes []) (by decide) (by decide)
    (by decide) (by decide) ihdr _ _ _ _ hidne]

/-- C1 (amended). RawDmi::save always writes the slots in the fixed
order signature, IHDR, zTXt, PLTE, other chunks, IDAT chunks, IEND. On
any buffer already laid out in that canonical order and built from
well-formed chunks — a consistent and correctly CRC-summed IHDR, a zTXt
chunk whose data sub-parses, an optional PLTE chunk, ancillary chunks of
non-special types, a non-empty IDAT list and the twelve-byte IEND — load
succeeds with exactly those chunk values and saving the loaded container
with include_ztxt reproduces the input byte-for-byte. (For accepted
inputs in a different chunk order the round trip fails: see the
counterexample, where a zTXt chunk sits after the IDAT chunk.) -/
theorem c1_roundtrip_canonical (ihdr z : RawGenericChunk) (zd : RawZtxtData)
    (op : Option RawGenericChunk) (others idats : List RawGenericChunk)
    (hwi : wfChunk ihdr) (htyi : ihdr.chunk_type = ihdrTypeBytes)
    (hwz : wfChunk z) (htyz : z.chunk_type = ztxtTypeBytes)
    (hzd : RawZtxtData.load z.data = .ok zd)
    (hwp : ∀ p ∈ op, wfChunk p ∧ p.chunk_type = plteTypeBytes)
    (hwo : ∀ c ∈ others, wfChunk c ∧ c.chunk_type ≠ ihdrTypeBytes ∧
      c.chunk_type ≠ ztxtTypeBytes ∧ c.chunk_type ≠ plteTypeBytes ∧
      c.chunk_type ≠ idatTypeBytes ∧ c.chunk_type ≠ iendTypeBytes)
    (hwid : ∀ c ∈ idats, wfChunk c ∧ c.chunk_type = idatTypeBytes)
    (hidne : idats ≠ [])
    (h72 : 72 ≤ (canonicalDmiBytes ihdr z op others idats).length) :
    RawDmi.load (canonicalDmiBytes ihdr z op others idats) =
      .ok ⟨pngHeaderBytes, ihdr, some ⟨z.data_length, z.chunk_type, zd, z.crc⟩, op,
        (if others = [] then none else some others), idats, RawIendChunk.new⟩ ∧
    RawDmi.save ⟨pngHeaderBytes, ihdr, some ⟨z.data_length, z.chunk_type, zd, z.crc⟩, op,
        (if others = [] then none else some others), idats, RawIendChunk.new⟩ true =
      .ok (canonicalDmiBytes ihdr z op others idats) :=
  ⟨rawDmiLoad_canonical ihdr z zd op others idats hwi htyi hwz htyz hzd hwp hwo hwid
      hidne h72,
    rawDmiSave_canonical ihdr z zd op others idats hwi hwz hzd
      (fun p hp => (hwp p hp).1) (fun c hc => (hwo c hc).1) (fun c hc => (hwid c hc).1)⟩

set_option maxRecDepth 400000 in
/-- Witness for c1_roundtrip_canonical on a concrete canonical PNG: a
thirteen-byte IHDR, a three-byte zTXt, one ancillary chunk, one empty
IDAT and the IEND; load returns the chunk values and save reproduces
the bytes. -/
theorem c1_roundtrip_canonical_witness :
    RawDmi.load (canonicalDmiBytes ihdrChunk0 ztxtChunk0 none [othrChunk0] [idatChunk0]) =
      .ok ⟨pngHeaderBytes, ihdrChunk0, some ⟨ztxtChunk0.data_length, ztxtChunk0.chunk_type,
        ⟨[75], 0, 0, []⟩, ztxtChunk0.crc⟩, none,
        (if ([othrChunk0] : List RawGenericChunk) = [] then none else some [othrChunk0]),
        [idatChunk0], RawIendChunk.new⟩ ∧
    RawDmi.save ⟨pngHeaderBytes, ihdrChunk0, some ⟨ztxtChunk0.data_length,
        ztxtChunk0.chunk_type, ⟨[75], 0, 0, []⟩, ztxtChunk0.crc⟩, none,
        (if ([othrChunk0] : List RawGenericChunk) = [] then none else some [othrChunk0]),
        [idatChunk0], RawIendChunk.new⟩ true =
      .ok (canonicalDmiBytes ihdrChunk0 ztxtChunk0 none [othrChunk0] [idatChunk0]) :=
  c1_roundtrip_canonical ihdrChunk0 ztxtChunk0 ⟨[75], 0, 0, []⟩ none [othrChunk0]
    [idatChunk0] (by decide) (by decide) (by decide) (by decide) (by decide) (by simp)
    (by decide) (by decide) (by decide) (by decide)
